import Mathlib

/-!
# Hydra integration of new-api: redirect-rewriting proxy, flow mediator, OAuth resource handlers

A shallow embedding of

* `router/hydra-proxy.go`  (`getRequestScheme`, `createHydraProxy`, `rewriteOAuthRedirect`,
  `isOAuthPath`),
* `service/hydra/service.go` (the `Service` wrappers of the Hydra admin client),
* `controller/oauth_api.go` (the scope-gated resource handlers),

together with the parts of the Go standard library the code's behaviour is made of
(`net/url` parsing and serialisation as of Go 1.22, `net/http` headers, a few `strings`
helpers, `strconv.Atoi`).

Go strings are byte sequences.  In the proxy, where URLs are taken apart byte by byte, they are
embedded as `List Char`, one `Char` per byte (code points `0 .. 255`); every literal the code
uses is ASCII.  In the service and the handlers, where strings are texts that are passed on,
they are embedded as `String`, and `len` is the length of the UTF-8 encoding.

Effects are made explicit: a function that logs, calls a collaborator or writes a response
returns the list of what it did, in order; a collaborator is given as the function from the
arguments of a call to its result.
-/

set_option autoImplicit false

/-- A Go `string`: a sequence of bytes, one `Char` per byte. -/
abbrev GoString := List Char

deriving instance DecidableEq for Except

/-! ## `strings` -/

namespace strings

/-- Embeds `strings.HasPrefix`. -/
def HasPrefix (s pre : GoString) : Bool := pre.isPrefixOf s

/-- Embeds `strings.HasSuffix`. -/
def HasSuffix (s suf : GoString) : Bool := suf.isSuffixOf s

/-- Embeds `strings.Contains(s, string(c))` for a one-byte separator. -/
def ContainsByte (s : GoString) (c : Char) : Bool := s.any (fun x => x == c)

/-- Embeds `strings.Count(s, string(c))` for a one-byte separator. -/
def CountByte (s : GoString) (c : Char) : Nat := s.count c

/-- Embeds `strings.Cut(s, string(sep))` for a one-byte separator: the text before the first `sep`,
the text after it, and whether `sep` was found. -/
def Cut : GoString → Char → GoString × GoString × Bool
  | [], _ => ([], [], false)
  | c :: rest, sep =>
    if c = sep then ([], rest, true)
    else
      let r := Cut rest sep
      (c :: r.1, r.2.1, r.2.2)

/-- Embeds `strings.Index(s, substr)`; `none` stands for `-1`. -/
def Index : GoString → GoString → Option Nat
  | [], substr => if substr.isEmpty then some 0 else none
  | c :: rest, substr =>
    if substr.isPrefixOf (c :: rest) then some 0
    else (Index rest substr).map (fun i => i + 1)

/-- Embeds `strings.LastIndex(s, string(c))` for a one-byte separator; `none` stands for `-1`. -/
def LastIndexByte : GoString → Char → Option Nat
  | [], _ => none
  | x :: rest, c =>
    match LastIndexByte rest c with
    | some i => some (i + 1)
    | none => if x = c then some 0 else none

/-- One byte of the ASCII branch of `strings.ToLower`: `'A' .. 'Z'` are shifted to
`'a' .. 'z'`. -/
def lowerByte (c : Char) : Char :=
  if 'A' ≤ c ∧ c ≤ 'Z' then Char.ofNat (c.toNat + 32) else c

/-- Embeds `strings.ToLower` on a string of bytes below `0x80`, the branch `isASCII` of the Go
function: every byte `'A' .. 'Z'` is shifted to `'a' .. 'z'`.  (A string with a byte from `0x80`
on is mapped by Go rune by rune through `unicode.ToLower`; that branch is not embedded.  The
scheme `url.parse` lower-cases has ASCII bytes only; where the argument is a header value, the
theorems assume it ASCII.) -/
def ToLower (s : GoString) : GoString := s.map lowerByte

/-- The table `asciiSpace` of `strings`: `'\t'`, `'\n'`, `'\v'`, `'\f'`, `'\r'`, `' '`. -/
def asciiSpace (c : Char) : Bool :=
  c == '\t' || c == '\n' || c == Char.ofNat 0x0b || c == Char.ofNat 0x0c || c == '\r' || c == ' '

/-- Embeds `strings.TrimSpace` on a string of bytes below `0x80`: the leading and the trailing
bytes of the table `asciiSpace` are removed.  (On meeting a byte from `0x80` on, Go goes over to
`TrimFunc(s, unicode.IsSpace)`, which also trims Unicode white space; that branch is not
embedded, and the theorems assume the argument ASCII.) -/
def TrimSpace (s : GoString) : GoString :=
  ((s.dropWhile asciiSpace).reverse.dropWhile asciiSpace).reverse

end strings

/-! ## `net/url` (Go standard library), the functions behind `url.Parse` and `URL.String` -/

namespace url

/-- The `encoding` modes of `net/url`. -/
inductive encoding
  | encodePath
  | encodePathSegment
  | encodeHost
  | encodeZone
  | encodeUserPassword
  | encodeQueryComponent
  | encodeFragment
deriving DecidableEq, Repr

open encoding

/-- The errors `url.Parse` can return. -/
inductive Error
  | invalidControlCharacter
  | emptyURL
  | missingProtocolScheme
  | invalidURIForRequest
  | firstPathSegmentColon
  | EscapeError (s : GoString)
  | InvalidHostError (s : GoString)
  | missingBracket
  | invalidPort (s : GoString)
  | invalidUserinfo
deriving DecidableEq, Repr

/-- The `Userinfo` type: user name and optional password. -/
structure Userinfo where
  username : GoString
  password : GoString
  passwordSet : Bool
deriving DecidableEq, Repr

/-- The `URL` type. -/
structure URL where
  Scheme : GoString := []
  Opaque : GoString := []
  User : Option Userinfo := none
  Host : GoString := []
  Path : GoString := []
  RawPath : GoString := []
  OmitHost : Bool := false
  ForceQuery : Bool := false
  RawQuery : GoString := []
  Fragment : GoString := []
  RawFragment : GoString := []
deriving DecidableEq, Repr

/-- Embeds `ishex`. -/
def ishex (c : Char) : Bool :=
  ('0' ≤ c && c ≤ '9') || ('a' ≤ c && c ≤ 'f') || ('A' ≤ c && c ≤ 'F')

/-- Embeds `unhex`. -/
def unhex (c : Char) : Nat :=
  if '0' ≤ c ∧ c ≤ '9' then c.toNat - '0'.toNat
  else if 'a' ≤ c ∧ c ≤ 'f' then c.toNat - 'a'.toNat + 10
  else if 'A' ≤ c ∧ c ≤ 'F' then c.toNat - 'A'.toNat + 10
  else 0

/-- The byte `unhex(a)<<4 | unhex(b)`. -/
def hexByte (a b : Char) : Char := Char.ofNat (unhex a * 16 + unhex b)

/-- One digit of `upperhex = "0123456789ABCDEF"`. -/
def upperhex (n : Nat) : Char := "0123456789ABCDEF".toList.getD n '0'

/-- Embeds `shouldEscape`: whether byte `c` must be escaped when it appears in the part of the URL
given by `mode`. -/
def shouldEscape (c : Char) (mode : encoding) : Bool :=
  if ('a' ≤ c && c ≤ 'z') || ('A' ≤ c && c ≤ 'Z') || ('0' ≤ c && c ≤ '9') then false
  else if (mode = encodeHost || mode = encodeZone) &&
      (['!', '$', '&', '\'', '(', ')', '*', '+', ',', ';', '=', ':', '[', ']', '<', '>', '"'].contains c) then
    false
  else if ['-', '_', '.', '~'].contains c then false
  else if ['$', '&', '+', ',', '/', ':', ';', '=', '?', '@'].contains c &&
      mode = encodePath then c == '?'
  else if ['$', '&', '+', ',', '/', ':', ';', '=', '?', '@'].contains c &&
      mode = encodePathSegment then c == '/' || c == ';' || c == ',' || c == '?'
  else if ['$', '&', '+', ',', '/', ':', ';', '=', '?', '@'].contains c &&
      mode = encodeUserPassword then c == '@' || c == '/' || c == '?' || c == ':'
  else if ['$', '&', '+', ',', '/', ':', ';', '=', '?', '@'].contains c &&
      mode = encodeQueryComponent then true
  else if ['$', '&', '+', ',', '/', ':', ';', '=', '?', '@'].contains c &&
      mode = encodeFragment then false
  else if mode = encodeFragment && ['!', '(', ')', '*'].contains c then false
  else true

/-- The first loop of `unescape`: check that every `%` starts a well-formed escape that the
mode allows, and that a host contains no byte that would need escaping. -/
def unescapeCheck (mode : encoding) : GoString → Option Error
  | [] => none
  | c :: rest =>
    if c = '%' then
      match rest with
      | a :: b :: rest2 =>
        if !ishex a || !ishex b then some (Error.EscapeError ((c :: rest).take 3))
        else if mode = encodeHost && decide (unhex a < 8) && ['%', a, b] != "%25".toList then
          some (Error.EscapeError ['%', a, b])
        else if mode = encodeZone && (['%', a, b] != "%25".toList && hexByte a b != ' ' &&
            shouldEscape (hexByte a b) encodeHost) then
          some (Error.EscapeError ['%', a, b])
        else unescapeCheck mode rest2
      | _ => some (Error.EscapeError ((c :: rest).take 3))
    else if c = '+' then unescapeCheck mode rest
    else if (mode = encodeHost || mode = encodeZone) && decide (c.toNat < 128) &&
        shouldEscape c encodeHost then
      some (Error.InvalidHostError [c])
    else unescapeCheck mode rest

/-- The second loop of `unescape`: decode `%XX` (and `+` in query components). -/
def unescapeDecode (mode : encoding) : GoString → GoString
  | [] => []
  | c :: rest =>
    if c = '%' then
      match rest with
      | a :: b :: rest2 => hexByte a b :: unescapeDecode mode rest2
      | _ => []
    else if c = '+' then
      (if mode = encodeQueryComponent then ' ' else '+') :: unescapeDecode mode rest
    else c :: unescapeDecode mode rest

/-- Embeds `unescape`. -/
def unescape (s : GoString) (mode : encoding) : Except Error GoString :=
  match unescapeCheck mode s with
  | some e => .error e
  | none =>
    if strings.CountByte s '%' = 0 ∧ ¬ (mode = encodeQueryComponent ∧ strings.ContainsByte s '+') then
      .ok s
    else .ok (unescapeDecode mode s)

/-- Embeds `escape`. -/
def escape : GoString → encoding → GoString
  | [], _ => []
  | c :: rest, mode =>
    if shouldEscape c mode then
      if c = ' ' ∧ mode = encodeQueryComponent then '+' :: escape rest mode
      else '%' :: upperhex (c.toNat / 16) :: upperhex (c.toNat % 16) :: escape rest mode
    else c :: escape rest mode

/-- Embeds `validEncoded`: whether `s` is a valid encoded path or fragment. -/
def validEncoded (s : GoString) (mode : encoding) : Bool :=
  s.all fun c =>
    if ['!', '$', '&', '\'', '(', ')', '*', '+', ',', ';', '=', ':', '@'].contains c then true
    else if c = '[' ∨ c = ']' then true
    else if c = '%' then true
    else !shouldEscape c mode

/-- Embeds `stringContainsCTLByte`. -/
def stringContainsCTLByte (s : GoString) : Bool :=
  s.any fun b => decide (b < ' ') || b == Char.ofNat 0x7f

/-- The loop of `getScheme`, at index `i` with `rest = rawURL[i:]`. -/
def getSchemeLoop (rawURL : GoString) : Nat → GoString → Except Error (GoString × GoString)
  | _, [] => .ok ([], rawURL)
  | i, c :: rest =>
    if ('a' ≤ c && c ≤ 'z') || ('A' ≤ c && c ≤ 'Z') then getSchemeLoop rawURL (i + 1) rest
    else if ('0' ≤ c && c ≤ '9') || c == '+' || c == '-' || c == '.' then
      if i = 0 then .ok ([], rawURL) else getSchemeLoop rawURL (i + 1) rest
    else if c = ':' then
      if i = 0 then .error Error.missingProtocolScheme
      else .ok (rawURL.take i, rawURL.drop (i + 1))
    else .ok ([], rawURL)

/-- Embeds `getScheme`: split a leading `scheme:` off `rawURL`. -/
def getScheme (rawURL : GoString) : Except Error (GoString × GoString) :=
  getSchemeLoop rawURL 0 rawURL

/-- Embeds `validOptionalPort`: `port` is empty or `:` followed by digits. -/
def validOptionalPort (port : GoString) : Bool :=
  match port with
  | [] => true
  | c :: digits => if c ≠ ':' then false else digits.all fun b => !(decide (b < '0') || decide (b > '9'))

/-- Embeds `parseHost`. -/
def parseHost (host : GoString) : Except Error GoString :=
  if strings.HasPrefix host ['['] then
    match strings.LastIndexByte host ']' with
    | none => .error Error.missingBracket
    | some i =>
      let colonPort := host.drop (i + 1)
      if !validOptionalPort colonPort then .error (Error.invalidPort colonPort)
      else
        match strings.Index (host.take i) "%25".toList with
        | some zone =>
          match unescape (host.take zone) encodeHost with
          | .error e => .error e
          | .ok host1 =>
            match unescape ((host.take i).drop zone) encodeZone with
            | .error e => .error e
            | .ok host2 =>
              match unescape (host.drop i) encodeHost with
              | .error e => .error e
              | .ok host3 => .ok (host1 ++ host2 ++ host3)
        | none => unescape host encodeHost
  else
    match strings.LastIndexByte host ':' with
    | some i =>
      let colonPort := host.drop i
      if !validOptionalPort colonPort then .error (Error.invalidPort colonPort)
      else unescape host encodeHost
    | none => unescape host encodeHost

/-- Embeds `validUserinfo`. -/
def validUserinfo (s : GoString) : Bool :=
  s.all fun r =>
    ('A' ≤ r && r ≤ 'Z') || ('a' ≤ r && r ≤ 'z') || ('0' ≤ r && r ≤ '9') ||
    ['-', '.', '_', ':', '~', '!', '$', '&', '\'', '(', ')', '*', '+', ',', ';', '=', '%', '@'].contains r

/-- Embeds `parseAuthority`: user info and host of `[userinfo@]host`. -/
def parseAuthority (authority : GoString) : Except Error (Option Userinfo × GoString) :=
  match strings.LastIndexByte authority '@' with
  | none =>
    match parseHost authority with
    | .error e => .error e
    | .ok host => .ok (none, host)
  | some i =>
    match parseHost (authority.drop (i + 1)) with
    | .error e => .error e
    | .ok host =>
      let userinfo := authority.take i
      if !validUserinfo userinfo then .error Error.invalidUserinfo
      else if !strings.ContainsByte userinfo ':' then
        match unescape userinfo encodeUserPassword with
        | .error e => .error e
        | .ok username => .ok (some ⟨username, [], false⟩, host)
      else
        let c := strings.Cut userinfo ':'
        match unescape c.1 encodeUserPassword with
        | .error e => .error e
        | .ok username =>
          match unescape c.2.1 encodeUserPassword with
          | .error e => .error e
          | .ok password => .ok (some ⟨username, password, true⟩, host)

/-- Embeds `(*URL).setPath`. -/
def URL.setPath (u : URL) (p : GoString) : Except Error URL :=
  match unescape p encodePath with
  | .error e => .error e
  | .ok path =>
    if p = escape path encodePath then .ok { u with Path := path, RawPath := [] }
    else .ok { u with Path := path, RawPath := p }

/-- Embeds `(*URL).setFragment`. -/
def URL.setFragment (u : URL) (f : GoString) : Except Error URL :=
  match unescape f encodeFragment with
  | .error e => .error e
  | .ok frag =>
    if f = escape frag encodeFragment then .ok { u with Fragment := frag, RawFragment := [] }
    else .ok { u with Fragment := frag, RawFragment := f }

/-- Embeds `parse`: parse a URL without fragment. -/
def parse (rawURL : GoString) (viaRequest : Bool) : Except Error URL :=
  if stringContainsCTLByte rawURL then .error Error.invalidControlCharacter
  else if rawURL = [] ∧ viaRequest then .error Error.emptyURL
  else if rawURL = ['*'] then .ok { Path := ['*'] }
  else
    match getScheme rawURL with
    | .error e => .error e
    | .ok (scheme, rest0) =>
      let scheme := strings.ToLower scheme
      let forceQuery := strings.HasSuffix rest0 ['?'] && strings.CountByte rest0 '?' == 1
      let rest1 := if forceQuery then rest0.take (rest0.length - 1) else (strings.Cut rest0 '?').1
      let rawQuery := if forceQuery then [] else (strings.Cut rest0 '?').2.1
      let url : URL := { Scheme := scheme, ForceQuery := forceQuery, RawQuery := rawQuery }
      if !strings.HasPrefix rest1 ['/'] ∧ scheme ≠ [] then .ok { url with Opaque := rest1 }
      else if !strings.HasPrefix rest1 ['/'] ∧ viaRequest then .error Error.invalidURIForRequest
      else if !strings.HasPrefix rest1 ['/'] ∧
          strings.ContainsByte (strings.Cut rest1 '/').1 ':' then
        .error Error.firstPathSegmentColon
      else if (scheme ≠ [] ∨ (!viaRequest ∧ !strings.HasPrefix rest1 ['/', '/', '/'])) ∧
          strings.HasPrefix rest1 ['/', '/'] then
        let authority0 := rest1.drop 2
        let authority := match strings.Index authority0 ['/'] with
          | some i => authority0.take i
          | none => authority0
        let rest2 := match strings.Index authority0 ['/'] with
          | some i => authority0.drop i
          | none => []
        match parseAuthority authority with
        | .error e => .error e
        | .ok (user, host) => URL.setPath { url with User := user, Host := host } rest2
      else if scheme ≠ [] ∧ strings.HasPrefix rest1 ['/'] then
        URL.setPath { url with OmitHost := true } rest1
      else URL.setPath url rest1

/-- Embeds `url.Parse`: cut off the fragment, parse the rest, set the fragment. -/
def Parse (rawURL : GoString) : Except Error URL :=
  let c := strings.Cut rawURL '#'
  match parse c.1 false with
  | .error e => .error e
  | .ok url => if c.2.1 = [] then .ok url else URL.setFragment url c.2.1

/-- Embeds `(*URL).EscapedPath`. -/
def URL.EscapedPath (u : URL) : GoString :=
  if u.RawPath ≠ [] ∧ validEncoded u.RawPath encodePath ∧
      unescape u.RawPath encodePath = .ok u.Path then u.RawPath
  else if u.Path = ['*'] then ['*']
  else escape u.Path encodePath

/-- Embeds `(*URL).EscapedFragment`. -/
def URL.EscapedFragment (u : URL) : GoString :=
  if u.RawFragment ≠ [] ∧ validEncoded u.RawFragment encodeFragment ∧
      unescape u.RawFragment encodeFragment = .ok u.Fragment then u.RawFragment
  else escape u.Fragment encodeFragment

/-- Embeds `(*Userinfo).String`. -/
def Userinfo.String (u : Userinfo) : GoString :=
  escape u.username encodeUserPassword ++
    (if u.passwordSet then ':' :: escape u.password encodeUserPassword else [])

/-- Embeds `(*URL).String`: reassemble the URL into a string. -/
def URL.String (u : URL) : GoString :=
  let scheme := if u.Scheme ≠ [] then u.Scheme ++ [':'] else []
  let body :=
    if u.Opaque ≠ [] then u.Opaque
    else
      let auth :=
        if u.Scheme ≠ [] ∨ u.Host ≠ [] ∨ u.User.isSome then
          if u.OmitHost ∧ u.Host = [] ∧ u.User.isNone then []
          else
            (if u.Host ≠ [] ∨ u.Path ≠ [] ∨ u.User.isSome then ['/', '/'] else []) ++
            (match u.User with
              | some ui => Userinfo.String ui ++ ['@']
              | none => []) ++
            (if u.Host ≠ [] then escape u.Host encodeHost else [])
        else []
      let path := URL.EscapedPath u
      let slash := if path ≠ [] ∧ path.head? ≠ some '/' ∧ u.Host ≠ [] then ['/'] else []
      let dot :=
        if scheme ++ auth ++ slash = [] ∧ strings.ContainsByte (strings.Cut path '/').1 ':' then
          ['.', '/']
        else []
      auth ++ slash ++ dot ++ path
  let query := if u.ForceQuery ∨ u.RawQuery ≠ [] then '?' :: u.RawQuery else []
  let fragment := if u.Fragment ≠ [] then '#' :: URL.EscapedFragment u else []
  scheme ++ body ++ query ++ fragment

end url

/-! ## `net/http`: headers, requests, responses -/

namespace http

/-- Embeds `http.Header`, a `map[string][]string`, as an association list; a key is looked up at its
first entry. -/
abbrev Header := List (GoString × List GoString)

/-- The map access `h[key]`: `none` when the key is absent. -/
def Header.lookup : Header → GoString → Option (List GoString)
  | [], _ => none
  | (k, v) :: t, key => if k = key then some v else Header.lookup t key

/-- Embeds `Header.Get(key)`: the first value of the key, `""` when there is none.  (Go first
canonicalises `key`; every key the proxy uses is already in canonical form.) -/
def Header.Get (h : Header) (key : GoString) : GoString :=
  match Header.lookup h key with
  | some (v :: _) => v
  | _ => []

/-- Embeds `Header.Set(key, value)`: the entry of the key is replaced by the single value `value`; a
key that is absent is added. -/
def Header.Set : Header → GoString → GoString → Header
  | [], key, value => [(key, [value])]
  | (k, v) :: t, key, value =>
    if k = key then (key, [value]) :: t else (k, v) :: Header.Set t key value

/-- The part of `http.Response` the proxy reads and writes: status code and headers (the body
is streamed through untouched). -/
structure Response where
  StatusCode : Int
  Header : Header
deriving DecidableEq, Repr

/-- The part of `http.Request` the proxy reads and writes: the request URL, `Host`, the headers
and whether the connection has TLS state (`req.TLS != nil`). -/
structure Request where
  URL : url.URL
  Host : GoString
  Header : Header
  TLS : Bool
deriving DecidableEq, Repr

end http

/-! ## `net/http/httputil`: the director of a single-host reverse proxy -/

namespace httputil

/-- Embeds `singleJoiningSlash`. -/
def singleJoiningSlash (a b : GoString) : GoString :=
  let aslash := strings.HasSuffix a ['/']
  let bslash := strings.HasPrefix b ['/']
  if aslash ∧ bslash then a ++ b.drop 1
  else if !aslash ∧ !bslash then a ++ ['/'] ++ b
  else a ++ b

/-- Embeds `joinURLPath`: the joined `Path` and `RawPath` of target `a` and request URL `b`. -/
def joinURLPath (a b : url.URL) : GoString × GoString :=
  if a.RawPath = [] ∧ b.RawPath = [] then (singleJoiningSlash a.Path b.Path, [])
  else
    let apath := url.URL.EscapedPath a
    let bpath := url.URL.EscapedPath b
    let aslash := strings.HasSuffix apath ['/']
    let bslash := strings.HasPrefix bpath ['/']
    if aslash ∧ bslash then (a.Path ++ b.Path.drop 1, apath ++ bpath.drop 1)
    else if !aslash ∧ !bslash then (a.Path ++ ['/'] ++ b.Path, apath ++ ['/'] ++ bpath)
    else (a.Path ++ b.Path, apath ++ bpath)

/-- Embeds `rewriteRequestURL`: point the request URL at the target. -/
def rewriteRequestURL (req : http.Request) (target : url.URL) : http.Request :=
  let targetQuery := target.RawQuery
  let joined := joinURLPath target req.URL
  { req with URL :=
    { req.URL with
      Scheme := target.Scheme
      Host := target.Host
      Path := joined.1
      RawPath := joined.2
      RawQuery :=
        if targetQuery = [] ∨ req.URL.RawQuery = [] then targetQuery ++ req.URL.RawQuery
        else targetQuery ++ ['&'] ++ req.URL.RawQuery } }

/-- The `Director` of the proxy that `NewSingleHostReverseProxy(target)` returns. -/
def NewSingleHostReverseProxy (target : url.URL) : http.Request → http.Request :=
  fun req => rewriteRequestURL req target

end httputil

/-! ## `router/hydra-proxy.go` -/

namespace router

open http

/-- Embeds `oauthRedirectPaths`: OAuth paths that are rewritten to the request's host and scheme. -/
def oauthRedirectPaths : List GoString :=
  ["/oauth/login".toList, "/oauth/consent".toList, "/oauth/logout".toList]

/-- Embeds `isOAuthPath`. -/
def isOAuthPath (path : GoString) : Bool :=
  oauthRedirectPaths.any fun p => strings.HasPrefix path p

/-- Embeds `getRequestScheme`: the scheme of the original request.  (With `strings.TrimSpace`
and `strings.ToLower` embedded on ASCII strings, the result is that of the code for an
`X-Forwarded-Proto` value of bytes below `0x80`.) -/
def getRequestScheme (req : Request) : GoString :=
  let proto := Header.Get req.Header "X-Forwarded-Proto".toList
  if proto ≠ [] then strings.ToLower (strings.TrimSpace proto)
  else if req.TLS then "https".toList
  else "http".toList

/-- What a call of `rewriteOAuthRedirect` leaves behind: the returned `error` (`none` is
`nil`), the response after the call, and the lines written with `common.SysLog`. -/
structure RewriteResult where
  err : Option GoString
  resp : Response
  log : List GoString
deriving DecidableEq, Repr

/-- Embeds `rewriteOAuthRedirect`: rewrite an OAuth redirect to the request's host and scheme. -/
def rewriteOAuthRedirect (resp : Response) (requestHost requestScheme : GoString) :
    RewriteResult :=
  if resp.StatusCode < 300 ∨ resp.StatusCode ≥ 400 then ⟨none, resp, []⟩
  else
    let location := Header.Get resp.Header "Location".toList
    if location = [] then ⟨none, resp, []⟩
    else
      match url.Parse location with
      | .error _ => ⟨none, resp, []⟩
      | .ok locURL =>
        if locURL.Host = [] then ⟨none, resp, []⟩
        else if !isOAuthPath locURL.Path then ⟨none, resp, []⟩
        else
          let oldLocation := location
          let locURL := { locURL with Host := requestHost, Scheme := requestScheme }
          ⟨none,
           { resp with Header := Header.Set resp.Header "Location".toList (url.URL.String locURL) },
           ["hydra rewrite: ".toList ++ oldLocation ++ " -> ".toList ++ url.URL.String locURL]⟩

/-- The two hooks of the `httputil.ReverseProxy` that `createHydraProxy` returns which act on
the request and the response (the `ErrorHandler`, which logs and answers 502, is left out). -/
structure ReverseProxy where
  Director : Request → Request
  ModifyResponse : Response → RewriteResult

/-- Embeds `createHydraProxy`: the reverse proxy for one inbound request. -/
def createHydraProxy (target : url.URL) (originalReq : Request) : ReverseProxy :=
  let requestHost := originalReq.Host
  let requestScheme := getRequestScheme originalReq
  let defaultDirector := httputil.NewSingleHostReverseProxy target
  { Director := fun req =>
      let req := defaultDirector req
      let req :=
        if requestHost ≠ [] then
          { req with Header := Header.Set req.Header "X-Forwarded-Host".toList requestHost }
        else req
      if requestScheme ≠ [] then
        { req with Header := Header.Set req.Header "X-Forwarded-Proto".toList requestScheme }
      else req
    ModifyResponse := fun resp => rewriteOAuthRedirect resp requestHost requestScheme }

end router

/-- A Go `error` value of a collaborator: its message. -/
abbrev GoError := String

/-! ## `service/hydra/service.go` -/

namespace hydra

/-- Embeds `client.OAuth2RedirectTo`: the URL the browser is to be sent to next. -/
structure OAuth2RedirectTo where
  RedirectTo : String
deriving DecidableEq, Repr

/-- Embeds `client.AcceptOAuth2LoginRequest`, the fields the service sets: `Subject` (required),
`Remember` and `RememberFor` (optional, `none` is an unset pointer).  The other optional fields
of the client type stay unset. -/
structure AcceptOAuth2LoginRequest where
  Subject : String
  Remember : Option Bool := none
  RememberFor : Option Int := none
deriving DecidableEq, Repr

/-- Embeds `client.RejectOAuth2Request`, the fields the service sets. -/
structure RejectOAuth2Request where
  Error : Option String := none
  ErrorDescription : Option String := none
deriving DecidableEq, Repr

/-- Embeds `client.AcceptOAuth2ConsentRequestSession`: the session claims, as their serialised
payload. -/
structure AcceptOAuth2ConsentRequestSession where
  payload : String
deriving DecidableEq, Repr

/-- Embeds `client.AcceptOAuth2ConsentRequest`, the fields the service sets. -/
structure AcceptOAuth2ConsentRequest where
  GrantScope : List String := []
  Remember : Option Bool := none
  RememberFor : Option Int := none
  Session : Option AcceptOAuth2ConsentRequestSession := none
deriving DecidableEq, Repr

/-- One request to the admin interface: the operation, the challenge that keys it and the
body, if the operation has one. -/
inductive AdminCall
  | AcceptOAuth2LoginRequest (loginChallenge : String) (body : AcceptOAuth2LoginRequest)
  | RejectOAuth2LoginRequest (loginChallenge : String) (body : RejectOAuth2Request)
  | AcceptOAuth2ConsentRequest (consentChallenge : String) (body : AcceptOAuth2ConsentRequest)
  | RejectOAuth2ConsentRequest (consentChallenge : String) (body : RejectOAuth2Request)
  | AcceptOAuth2LogoutRequest (logoutChallenge : String)
  | RejectOAuth2LogoutRequest (logoutChallenge : String)
deriving DecidableEq, Repr

/-- The part of `client.OAuth2API` behind the accept and reject operations: what `Execute()`
returns for each request (the `*http.Response` in the middle, which the service drops, is left
out).  A `*client.OAuth2RedirectTo` may be `nil` (`none`); `error` `none` is `nil`.  Rejecting a
logout request has no value to return, only an error. -/
structure OAuth2API where
  AcceptOAuth2LoginRequest :
    String → AcceptOAuth2LoginRequest → Option OAuth2RedirectTo × Option GoError
  RejectOAuth2LoginRequest :
    String → RejectOAuth2Request → Option OAuth2RedirectTo × Option GoError
  AcceptOAuth2ConsentRequest :
    String → AcceptOAuth2ConsentRequest → Option OAuth2RedirectTo × Option GoError
  RejectOAuth2ConsentRequest :
    String → RejectOAuth2Request → Option OAuth2RedirectTo × Option GoError
  AcceptOAuth2LogoutRequest : String → Option OAuth2RedirectTo × Option GoError
  RejectOAuth2LogoutRequest : String → Option GoError

/-- Embeds `Service`: wraps the Hydra admin client. -/
structure Service where
  admin : OAuth2API

/-- What a method of `Service` does: the values it returns and the admin requests it made, in
order. -/
structure Outcome (α : Type) where
  ret : α
  calls : List AdminCall

/-- Embeds `Service.AcceptLogin`. -/
def Service.AcceptLogin (s : Service) (challenge subject : String) (remember : Bool)
    (rememberFor : Int) : Outcome (Option OAuth2RedirectTo × Option GoError) :=
  let body : AcceptOAuth2LoginRequest := { Subject := subject }
  let body := { body with Remember := some remember }
  let body := { body with RememberFor := some rememberFor }
  ⟨s.admin.AcceptOAuth2LoginRequest challenge body,
   [AdminCall.AcceptOAuth2LoginRequest challenge body]⟩

/-- Embeds `Service.RejectLogin`. -/
def Service.RejectLogin (s : Service) (challenge errorID errorDescription : String) :
    Outcome (Option OAuth2RedirectTo × Option GoError) :=
  let body : RejectOAuth2Request := {}
  let body := { body with Error := some errorID }
  let body := { body with ErrorDescription := some errorDescription }
  ⟨s.admin.RejectOAuth2LoginRequest challenge body,
   [AdminCall.RejectOAuth2LoginRequest challenge body]⟩

/-- Embeds `Service.AcceptConsent`. -/
def Service.AcceptConsent (s : Service) (challenge : String) (grantScope : List String)
    (remember : Bool) (rememberFor : Int) (session : Option AcceptOAuth2ConsentRequestSession) :
    Outcome (Option OAuth2RedirectTo × Option GoError) :=
  let body : AcceptOAuth2ConsentRequest := {}
  let body := { body with GrantScope := grantScope }
  let body := { body with Remember := some remember }
  let body := { body with RememberFor := some rememberFor }
  let body := match session with
    | some sess => { body with Session := some sess }
    | none => body
  ⟨s.admin.AcceptOAuth2ConsentRequest challenge body,
   [AdminCall.AcceptOAuth2ConsentRequest challenge body]⟩

/-- Embeds `Service.RejectConsent`. -/
def Service.RejectConsent (s : Service) (challenge errorID errorDescription : String) :
    Outcome (Option OAuth2RedirectTo × Option GoError) :=
  let body : RejectOAuth2Request := {}
  let body := { body with Error := some errorID }
  let body := { body with ErrorDescription := some errorDescription }
  ⟨s.admin.RejectOAuth2ConsentRequest challenge body,
   [AdminCall.RejectOAuth2ConsentRequest challenge body]⟩

/-- Embeds `Service.AcceptLogout`. -/
def Service.AcceptLogout (s : Service) (challenge : String) :
    Outcome (Option OAuth2RedirectTo × Option GoError) :=
  ⟨s.admin.AcceptOAuth2LogoutRequest challenge, [AdminCall.AcceptOAuth2LogoutRequest challenge]⟩

/-- Embeds `Service.RejectLogout`: returns an `error` only. -/
def Service.RejectLogout (s : Service) (challenge : String) : Outcome (Option GoError) :=
  ⟨s.admin.RejectOAuth2LogoutRequest challenge, [AdminCall.RejectOAuth2LogoutRequest challenge]⟩

/-- The three flow kinds. -/
inductive Flow
  | login
  | consent
  | logout
deriving DecidableEq, Repr

/-- The reject operation of the flow mediator in the shape the specification gives it, the same
for every flow kind: challenge, error code and description in, redirect and error out.  Login and
consent are served by `RejectLogin` and `RejectConsent`; logout is served by `RejectLogout`, which
has no parameter for the error code or the description and returns no redirect. -/
def Service.reject (s : Service) (flow : Flow) (challenge errorID errorDescription : String) :
    Outcome (Option OAuth2RedirectTo × Option GoError) :=
  match flow with
  | Flow.login => Service.RejectLogin s challenge errorID errorDescription
  | Flow.consent => Service.RejectConsent s challenge errorID errorDescription
  | Flow.logout => ⟨(none, (Service.RejectLogout s challenge).ret), (Service.RejectLogout s challenge).calls⟩

/-- The reject body an admin request carries, if it carries one. -/
def AdminCall.rejectBody : AdminCall → Option RejectOAuth2Request
  | AdminCall.RejectOAuth2LoginRequest _ body => some body
  | AdminCall.RejectOAuth2ConsentRequest _ body => some body
  | _ => none

end hydra

/-! ## `strconv` -/

namespace strconv

/-- The two `*NumError` kinds of `strconv.Atoi`. -/
inductive NumError
  | ErrSyntax
  | ErrRange
deriving DecidableEq, Repr

/-- Embeds `strconv.Atoi` for a 64-bit `int`: an optional sign and at least one decimal digit, nothing
else; a value outside `-2^63 .. 2^63 - 1` is a range error. -/
def Atoi (s : String) : Except NumError Int :=
  let neg := s.toList.head? = some '-'
  let digits := if s.toList.head? = some '-' ∨ s.toList.head? = some '+' then s.toList.tail
    else s.toList
  if digits = [] ∨ ¬ (digits.all fun ch => decide ('0' ≤ ch ∧ ch ≤ '9')) then .error NumError.ErrSyntax
  else
    let n : Nat := digits.foldl (fun n ch => n * 10 + (ch.toNat - '0'.toNat)) 0
    if neg then (if n > 2 ^ 63 then .error NumError.ErrRange else .ok (-(n : Int)))
    else if n ≥ 2 ^ 63 then .error NumError.ErrRange
    else .ok (n : Int)

end strconv

/-! ## `controller/oauth_api.go` -/

namespace controller

/-- A JSON value, as `c.JSON` is given it (`gin.H` is an object; its fields are listed in the
order of the source). -/
inductive JSON
  | null
  | bool (b : Bool)
  | num (n : Int)
  | str (s : String)
  | arr (items : List JSON)
  | obj (fields : List (String × JSON))

/-- Embeds `model.User`, the fields the handlers read. -/
structure User where
  Id : Int
  Username : String
  DisplayName : String
  Email : String
  Group : String
  Quota : Int
  UsedQuota : Int
  RequestCount : Int

/-- Embeds `model.Token`, the fields the handlers read or set; a field a composite literal leaves out
has its zero value. -/
structure Token where
  Id : Int := 0
  UserId : Int := 0
  Key : String := ""
  Status : Int := 0
  Name : String := ""
  CreatedTime : Int := 0
  AccessedTime : Int := 0
  ExpiredTime : Int := 0
  RemainQuota : Int := 0
  UnlimitedQuota : Bool := false

/-- The collaborators of the handlers, packages `model` and `common`: what each call returns.
`GetTimestamp` is given the number of calls made before it in the handler.  `Insert` returns the
token as stored (its `Id` assigned) or an error. -/
structure Collaborators where
  GetUserById : Int → Bool → Except GoError User
  GetAllUserTokens : Int → Int → Int → Except GoError (List Token)
  GetTokenById : Int → Except GoError Token
  DeleteTokenById : Int → Int → Option GoError
  Insert : Token → Except GoError Token
  GenerateKey : Except GoError String
  GetTimestamp : Nat → Int

/-- The part of `gin.Context` the handlers read: `c.GetInt(key)`, `c.Param(key)`, and the `name`
field decoded from the JSON body (`error` when the body is not well-formed JSON for the request
struct). -/
structure Context where
  GetInt : String → Int
  Param : String → String
  bodyName : Except GoError String

/-- What a handler does, in order: the responses written with `c.JSON` and the calls made to
the collaborators. -/
inductive Effect
  | JSON (status : Int) (body : JSON)
  | GetUserById (id : Int) (selectAll : Bool)
  | GetAllUserTokens (userId startIdx num : Int)
  | GetTokenById (id : Int)
  | DeleteTokenById (id userId : Int)
  | Insert (token : Token)
  | GenerateKey
  | GetTimestamp

/-- Embeds `c.ShouldBindJSON(&req)` for `struct { Name string "json:\"name\" binding:\"required\"" }`:
the decoded name, an error when decoding fails or the name is empty. -/
def ShouldBindJSON (c : Context) : Except GoError String :=
  match c.bodyName with
  | .error e => .error e
  | .ok name =>
    if name = "" then
      .error "Key: 'Name' Error:Field validation for 'Name' failed on the 'required' tag"
    else .ok name

/-- The failure envelope `gin.H{"success": false, "error": msg}`. -/
def failure (msg : String) : JSON :=
  JSON.obj [("success", JSON.bool false), ("error", JSON.str msg)]

/-- Embeds `getUserFromContext`: the user id of the context; `0` if unauthorized, and then the error
response is sent. -/
def getUserFromContext (c : Context) : Int × List Effect :=
  let userId := c.GetInt "id"
  if userId = 0 then (userId, [Effect.JSON 401 (failure "unauthorized")])
  else (userId, [])

/-- Embeds `OAuthGetUserInfo`. -/
def OAuthGetUserInfo (m : Collaborators) (c : Context) : List Effect :=
  let r := getUserFromContext c
  let userId := r.1
  if userId = 0 then r.2
  else
    match m.GetUserById userId false with
    | .error _ =>
      r.2 ++ [Effect.GetUserById userId false, Effect.JSON 404 (failure "user not found")]
    | .ok user =>
      r.2 ++ [Effect.GetUserById userId false,
        Effect.JSON 200 (JSON.obj [("success", JSON.bool true),
          ("data", JSON.obj [("id", JSON.num user.Id), ("username", JSON.str user.Username),
            ("display_name", JSON.str user.DisplayName), ("email", JSON.str user.Email),
            ("group", JSON.str user.Group)])])]

/-- Embeds `OAuthGetBalance`. -/
def OAuthGetBalance (m : Collaborators) (c : Context) : List Effect :=
  let r := getUserFromContext c
  let userId := r.1
  if userId = 0 then r.2
  else
    match m.GetUserById userId false with
    | .error _ =>
      r.2 ++ [Effect.GetUserById userId false, Effect.JSON 404 (failure "user not found")]
    | .ok user =>
      r.2 ++ [Effect.GetUserById userId false,
        Effect.JSON 200 (JSON.obj [("success", JSON.bool true),
          ("data", JSON.obj [("quota", JSON.num user.Quota),
            ("used_quota", JSON.num user.UsedQuota)])])]

/-- Embeds `OAuthGetUsage`. -/
def OAuthGetUsage (m : Collaborators) (c : Context) : List Effect :=
  let r := getUserFromContext c
  let userId := r.1
  if userId = 0 then r.2
  else
    match m.GetUserById userId false with
    | .error _ =>
      r.2 ++ [Effect.GetUserById userId false, Effect.JSON 404 (failure "user not found")]
    | .ok user =>
      r.2 ++ [Effect.GetUserById userId false,
        Effect.JSON 200 (JSON.obj [("success", JSON.bool true),
          ("data", JSON.obj [("request_count", JSON.num user.RequestCount),
            ("used_quota", JSON.num user.UsedQuota), ("quota", JSON.num user.Quota)])])]

/-- The entry of `safeTokens` for one token: the key is left out. -/
def safeToken (t : Token) : JSON :=
  JSON.obj [("id", JSON.num t.Id), ("name", JSON.str t.Name), ("status", JSON.num t.Status),
    ("created_time", JSON.num t.CreatedTime), ("expired_time", JSON.num t.ExpiredTime),
    ("remain_quota", JSON.num t.RemainQuota), ("unlimited_quota", JSON.bool t.UnlimitedQuota)]

/-- Embeds `OAuthListTokens`. -/
def OAuthListTokens (m : Collaborators) (c : Context) : List Effect :=
  let r := getUserFromContext c
  let userId := r.1
  if userId = 0 then r.2
  else
    match m.GetAllUserTokens userId 0 100 with
    | .error _ =>
      r.2 ++ [Effect.GetAllUserTokens userId 0 100, Effect.JSON 500 (failure "failed to get tokens")]
    | .ok tokens =>
      r.2 ++ [Effect.GetAllUserTokens userId 0 100,
        Effect.JSON 200 (JSON.obj [("success", JSON.bool true),
          ("data", JSON.arr (tokens.map safeToken))])]

/-- Embeds `len(s)` of a Go string holding the text `s`: the number of bytes of its UTF-8 encoding. -/
def len (s : String) : Nat := s.utf8ByteSize

/-- Embeds `OAuthCreateToken`. -/
def OAuthCreateToken (m : Collaborators) (c : Context) : List Effect :=
  let r := getUserFromContext c
  let userId := r.1
  if userId = 0 then r.2
  else
    match ShouldBindJSON c with
    | .error err => r.2 ++ [Effect.JSON 400 (failure ("invalid request: " ++ err))]
    | .ok name =>
      if len name > 30 then
        r.2 ++ [Effect.JSON 400 (failure "token name too long (max 30 characters)")]
      else
        match m.GenerateKey with
        | .error _ =>
          r.2 ++ [Effect.GenerateKey, Effect.JSON 500 (failure "failed to generate token key")]
        | .ok key =>
          let token : Token :=
            { UserId := userId, Name := name, Key := key, CreatedTime := m.GetTimestamp 0,
              AccessedTime := m.GetTimestamp 1, ExpiredTime := -1, UnlimitedQuota := false }
          match m.Insert token with
          | .error _ =>
            r.2 ++ [Effect.GenerateKey, Effect.GetTimestamp, Effect.GetTimestamp,
              Effect.Insert token, Effect.JSON 500 (failure "failed to create token")]
          | .ok token2 =>
            r.2 ++ [Effect.GenerateKey, Effect.GetTimestamp, Effect.GetTimestamp,
              Effect.Insert token,
              Effect.JSON 200 (JSON.obj [("success", JSON.bool true),
                ("data", JSON.obj [("id", JSON.num token2.Id), ("name", JSON.str token2.Name),
                  ("key", JSON.str token2.Key)])])]

/-- Embeds `OAuthDeleteToken`. -/
def OAuthDeleteToken (m : Collaborators) (c : Context) : List Effect :=
  let r := getUserFromContext c
  let userId := r.1
  if userId = 0 then r.2
  else
    let tokenIdStr := c.Param "id"
    if tokenIdStr = "" then r.2 ++ [Effect.JSON 400 (failure "missing token id")]
    else
      match strconv.Atoi tokenIdStr with
      | .error _ => r.2 ++ [Effect.JSON 400 (failure "invalid token id")]
      | .ok tokenId =>
        match m.GetTokenById tokenId with
        | .error _ =>
          r.2 ++ [Effect.GetTokenById tokenId, Effect.JSON 404 (failure "token not found")]
        | .ok token =>
          if token.UserId ≠ userId then
            r.2 ++ [Effect.GetTokenById tokenId, Effect.JSON 404 (failure "token not found")]
          else
            match m.DeleteTokenById tokenId userId with
            | some _ =>
              r.2 ++ [Effect.GetTokenById tokenId, Effect.DeleteTokenById tokenId userId,
                Effect.JSON 500 (failure "failed to delete token")]
            | none =>
              r.2 ++ [Effect.GetTokenById tokenId, Effect.DeleteTokenById tokenId userId,
                Effect.JSON 200 (JSON.obj [("success", JSON.bool true),
                  ("message", JSON.str "token deleted")])]

end controller

/-! ## The shape of a well-formed `Location` -/

namespace router

/-- The text `scheme:` of a URL, empty when the URL has no scheme. -/
def schemeText : Option GoString → GoString
  | none => []
  | some sc => sc ++ [':']

/-- The text `?query` of a URL, empty when the URL has no `?`. -/
def queryText : Option GoString → GoString
  | none => []
  | some q => '?' :: q

/-- The text `#fragment` of a URL, empty when the URL has no `#`. -/
def fragmentText : Option GoString → GoString
  | none => []
  | some f => '#' :: f

/-- The text `userinfo@` of a URL, empty when the URL has no user information. -/
def userinfoText : Option url.Userinfo → GoString
  | none => []
  | some ui => url.Userinfo.String ui ++ ['@']

/-- The text `[scheme:][//[userinfo@]host]` that `URL.String` writes ahead of the path of a URL
with scheme `s`, user information `usr` and host `h`. -/
def originText (s h : GoString) (usr : Option url.Userinfo) : GoString :=
  (if s = [] then [] else s ++ [':']) ++
  (if s = [] ∧ h = [] ∧ usr = none then []
   else "//".toList ++ userinfoText usr ++ url.escape h url.encoding.encodeHost)

/-- A scheme name as `getScheme` accepts it: a letter, then letters, digits, `+`, `-`, `.`. -/
def validScheme : GoString → Bool
  | [] => false
  | c :: rest =>
    (('a' ≤ c && c ≤ 'z') || ('A' ≤ c && c ≤ 'Z')) &&
    rest.all fun c => ('a' ≤ c && c ≤ 'z') || ('A' ≤ c && c ≤ 'Z') ||
      ('0' ≤ c && c ≤ '9') || c == '+' || c == '-' || c == '.'

/-- No byte of `s` is a control byte or one of the bytes `stop`. -/
def freeOf (stop : List Char) (s : GoString) : Bool :=
  s.all fun c => !(decide (c < ' ') || c == Char.ofNat 0x7f) && !stop.contains c

end router

/-! ## Sample values -/

namespace samples

open http controller hydra

/-- A 302 response with the given `Location`. -/
def redirect302 (location : String) : Response :=
  ⟨302, [("Content-Length".toList, ["0".toList]), ("Location".toList, [location.toList])]⟩

/-- The public URL of the authorization server, `http://hydra:4444`. -/
def target : url.URL := { Scheme := "http".toList, Host := "hydra:4444".toList }

/-- A request for `/oauth2/auth` with the given `Host`, headers and TLS state. -/
def request (host : String) (header : Header) (tls : Bool) : Request :=
  ⟨{ Path := "/oauth2/auth".toList }, host.toList, header, tls⟩

/-- Collaborators that know one user and one token, both of user 7. -/
def collaborators : Collaborators where
  GetUserById := fun id _ =>
    if id = 7 then .ok ⟨7, "ada", "Ada", "ada@example.com", "default", 1000, 10, 3⟩
    else .error "record not found"
  GetAllUserTokens := fun _ _ _ => .ok []
  GetTokenById := fun id =>
    if id = 5 then .ok { Id := 5, UserId := 7, Name := "laptop" } else .error "record not found"
  DeleteTokenById := fun _ _ => none
  Insert := fun t => .ok { t with Id := 6 }
  GenerateKey := .ok "k"
  GetTimestamp := fun _ => 1700000000

/-- A request context: the verified user id, the `id` path parameter, the `name` of the body. -/
def context (userId : Int) (idParam name : String) : Context where
  GetInt := fun key => if key = "id" then userId else 0
  Param := fun key => if key = "id" then idParam else ""
  bodyName := .ok name

/-- An admin interface that answers every accept or reject with the same redirect. -/
def admin : OAuth2API where
  AcceptOAuth2LoginRequest := fun _ _ => (some ⟨"https://auth.example.com/next"⟩, none)
  RejectOAuth2LoginRequest := fun _ _ => (some ⟨"https://auth.example.com/next"⟩, none)
  AcceptOAuth2ConsentRequest := fun _ _ => (some ⟨"https://auth.example.com/next"⟩, none)
  RejectOAuth2ConsentRequest := fun _ _ => (some ⟨"https://auth.example.com/next"⟩, none)
  AcceptOAuth2LogoutRequest := fun _ => (some ⟨"https://auth.example.com/next"⟩, none)
  RejectOAuth2LogoutRequest := fun _ => none

end samples

/-! ## Lemmas on headers and on `strings` -/

namespace http

/-- After `Set(key, value)` the key is bound to the single value `value`. -/
theorem Header.lookup_Set (h : Header) (key value : GoString) :
    Header.lookup (Header.Set h key value) key = some [value] := by
  induction h with
  | nil => simp [Header.Set, Header.lookup]
  | cons kv t ih =>
    obtain ⟨k, v⟩ := kv
    by_cases hk : k = key
    · simp [Header.Set, Header.lookup, hk]
    · simp [Header.Set, Header.lookup, hk, ih]

/-- A `Set(key, value)` leaves the entry of every other key as it was. -/
theorem Header.lookup_Set_ne (h : Header) (key other value : GoString) (hne : other ≠ key) :
    Header.lookup (Header.Set h key value) other = Header.lookup h other := by
  induction h with
  | nil => simp [Header.Set, Header.lookup, Ne.symm hne]
  | cons kv t ih =>
    obtain ⟨k, v⟩ := kv
    by_cases hk : k = key
    · subst hk
      simp [Header.Set, Header.lookup, Ne.symm hne]
    · by_cases hk2 : k = other
      · subst hk2
        simp [Header.Set, Header.lookup, hk]
      · simp [Header.Set, Header.lookup, hk, hk2, ih]

/-- After `Set(key, value)`, `Get(key)` is `value`. -/
theorem Header.Get_Set (h : Header) (key value : GoString) :
    Header.Get (Header.Set h key value) key = value := by
  simp [Header.Get, Header.lookup_Set]

/-- A `Set(key, value)` leaves `Get` of every other key as it was. -/
theorem Header.Get_Set_ne (h : Header) (key other value : GoString) (hne : other ≠ key) :
    Header.Get (Header.Set h key value) other = Header.Get h other := by
  simp [Header.Get, Header.lookup_Set_ne _ _ _ _ hne]

end http

namespace strings

/-- A string without the separator is cut into itself and nothing. -/
theorem Cut_of_not_mem (a : GoString) (c : Char) (h : c ∉ a) : Cut a c = (a, [], false) := by
  induction a with
  | nil => rfl
  | cons x t ih =>
    have hx : x ≠ c := fun e => h (by simp [e])
    have ht : c ∉ t := fun e => h (by simp [e])
    simp [Cut, hx, ih ht]

/-- A string is cut at the first occurrence of the separator. -/
theorem Cut_append (a b : GoString) (c : Char) (h : c ∉ a) :
    Cut (a ++ c :: b) c = (a, b, true) := by
  induction a with
  | nil => simp [Cut]
  | cons x t ih =>
    have hx : x ≠ c := fun e => h (by simp [e])
    have ht : c ∉ t := fun e => h (by simp [e])
    simp [Cut, hx, ih ht]

/-- The first `/` of a string is found behind a prefix without `/`. -/
theorem Index_slash (a b : GoString) (h : '/' ∉ a) :
    Index (a ++ '/' :: b) ['/'] = some a.length := by
  induction a with
  | nil => simp [Index, List.isPrefixOf]
  | cons x t ih =>
    have hx : x ≠ '/' := fun e => h (by simp [e])
    have ht : '/' ∉ t := fun e => h (by simp [e])
    have hx2 : ('/' == x) = false := by simpa using Ne.symm hx
    simp [Index, List.isPrefixOf, hx2, ih ht]

/-- What `Cut` returns: the text before the first separator is free of it, and the string is
that text, the separator and the text after it, or, without separator, that text alone. -/
theorem Cut_spec (s : GoString) (c : Char) :
    c ∉ (Cut s c).1 ∧
    ((Cut s c).2.2 = true → s = (Cut s c).1 ++ c :: (Cut s c).2.1) ∧
    ((Cut s c).2.2 = false → s = (Cut s c).1 ∧ (Cut s c).2.1 = []) := by
  induction s with
  | nil => simp [Cut]
  | cons x t ih =>
    by_cases hx : x = c
    · subst hx
      simp [Cut]
    · obtain ⟨h1, h2, h3⟩ := ih
      simp only [Cut, hx, if_false, List.mem_cons, not_or, List.cons_append, List.cons.injEq,
        true_and]
      refine ⟨⟨Ne.symm hx, h1⟩, h2, h3⟩

/-- What `Index(s, "/")` returns: the position of the first `/`. -/
theorem Index_slash_spec (s : GoString) :
    (∀ i, Index s ['/'] = some i → '/' ∉ s.take i ∧ (s.drop i).head? = some '/') ∧
    (Index s ['/'] = none → '/' ∉ s) := by
  induction s with
  | nil => simp [Index]
  | cons x t ih =>
    by_cases hx : x = '/'
    · subst hx
      simp [Index, List.isPrefixOf]
    · have hx2 : ('/' == x) = false := by simpa using Ne.symm hx
      obtain ⟨h1, h2⟩ := ih
      simp only [Index, List.isPrefixOf, hx2, Bool.false_and, Bool.false_eq_true, if_false,
        Option.map_eq_some', Option.map_eq_none', forall_exists_index, and_imp]
      refine ⟨?_, ?_⟩
      · intro i j hj hij
        subst hij
        obtain ⟨ha, hb⟩ := h1 j hj
        simp only [List.take_succ_cons, List.mem_cons, not_or, List.drop_succ_cons]
        exact ⟨⟨Ne.symm hx, ha⟩, hb⟩
      · intro hn
        simp only [List.mem_cons, not_or]
        exact ⟨Ne.symm hx, h2 hn⟩

/-- The split of a string at its first `/` is unique. -/
theorem first_slash_unique (a b c d : GoString) (h : a ++ '/' :: b = c ++ '/' :: d)
    (ha : '/' ∉ a) (hc : '/' ∉ c) : a = c ∧ b = d := by
  induction a generalizing c with
  | nil =>
    cases c with
    | nil => simpa using h
    | cons y c' =>
      simp only [List.nil_append, List.cons_append, List.cons.injEq] at h
      exact absurd (by simp [← h.1]) hc
  | cons x a' ih =>
    cases c with
    | nil =>
      simp only [List.nil_append, List.cons_append, List.cons.injEq] at h
      exact absurd (by simp [h.1]) ha
    | cons y c' =>
      simp only [List.cons_append, List.cons.injEq] at h
      have ha' : '/' ∉ a' := fun e => ha (by simp [e])
      have hc' : '/' ∉ c' := fun e => hc (by simp [e])
      obtain ⟨e1, e2⟩ := ih c' h.2 ha' hc'
      exact ⟨by rw [h.1, e1], e2⟩

/-- The first byte of what `dropWhile p` leaves does not satisfy `p`. -/
theorem head?_dropWhile_false (p : Char → Bool) (l : GoString) (c : Char)
    (h : (l.dropWhile p).head? = some c) : p c = false := by
  induction l with
  | nil => simp at h
  | cons x t ih =>
    by_cases hx : p x = true
    · rw [List.dropWhile_cons_of_pos hx] at h
      exact ih h
    · rw [List.dropWhile_cons_of_neg hx] at h
      simp only [List.head?_cons, Option.some.injEq] at h
      rw [← h]
      simpa using hx

/-- The bytes of the table `asciiSpace`. -/
theorem asciiSpace_iff (c : Char) :
    asciiSpace c = true ↔ c ∈ ['\t', '\n', Char.ofNat 0x0b, Char.ofNat 0x0c, '\r', ' '] := by
  simp only [asciiSpace, Bool.or_eq_true, beq_iff_eq, List.mem_cons, List.mem_singleton,
    List.mem_nil_iff, or_false, or_assoc]

/-- What `TrimSpace` removes and what it leaves: the text is white space, then the result, then
white space, and the result neither begins nor ends with white space. -/
theorem TrimSpace_spec (s : GoString) :
    ∃ pre post : GoString, s = pre ++ TrimSpace s ++ post ∧
      (∀ c ∈ pre, asciiSpace c = true) ∧ (∀ c ∈ post, asciiSpace c = true) ∧
      (∀ c, (TrimSpace s).head? = some c → asciiSpace c = false) ∧
      (∀ c, (TrimSpace s).getLast? = some c → asciiSpace c = false) := by
  have h1 : s = s.takeWhile asciiSpace ++ s.dropWhile asciiSpace :=
    (List.takeWhile_append_dropWhile asciiSpace s).symm
  have h2 : s.dropWhile asciiSpace = TrimSpace s ++
      ((s.dropWhile asciiSpace).reverse.takeWhile asciiSpace).reverse := by
    have := List.takeWhile_append_dropWhile asciiSpace (s.dropWhile asciiSpace).reverse
    have := congrArg List.reverse this
    simp only [List.reverse_append, List.reverse_reverse] at this
    exact this.symm
  refine ⟨s.takeWhile asciiSpace,
    ((s.dropWhile asciiSpace).reverse.takeWhile asciiSpace).reverse, ?_, ?_, ?_, ?_, ?_⟩
  · rw [List.append_assoc, ← h2]; exact h1
  · intro c hc
    exact List.mem_takeWhile_imp hc
  · intro c hc
    exact List.mem_takeWhile_imp (List.mem_reverse.mp hc)
  · intro c hc
    cases ht : TrimSpace s with
    | nil => rw [ht] at hc; simp at hc
    | cons x t =>
      rw [ht] at hc h2
      simp only [List.head?_cons, Option.some.injEq] at hc
      subst hc
      exact head?_dropWhile_false asciiSpace s x (by rw [h2]; rfl)
  · intro c hc
    unfold TrimSpace at hc
    rw [List.getLast?_reverse] at hc
    exact head?_dropWhile_false asciiSpace _ c hc

end strings

/-! ## Lemmas on `net/url`: parsing a well-formed URL, and serialising it -/

namespace url

open router encoding

/-- The loop of `getScheme` from index `i > 0` on, over scheme bytes up to a colon. -/
theorem getSchemeLoop_tail (raw rest : GoString) :
    ∀ (t : GoString) (i : Nat), 0 < i →
      (t.all fun c => ('a' ≤ c && c ≤ 'z') || ('A' ≤ c && c ≤ 'Z') ||
        ('0' ≤ c && c ≤ '9') || c == '+' || c == '-' || c == '.') = true →
      getSchemeLoop raw i (t ++ ':' :: rest) =
        .ok (raw.take (i + t.length), raw.drop (i + t.length + 1)) := by
  intro t
  induction t with
  | nil =>
    intro i hi _
    have h1 : (('a' ≤ ':' && ':' ≤ 'z') || ('A' ≤ ':' && ':' ≤ 'Z')) = false := by decide
    have h2 : (('0' ≤ ':' && ':' ≤ '9') || ':' == '+' || ':' == '-' || ':' == '.') = false := by
      decide
    have hi0 : i ≠ 0 := Nat.pos_iff_ne_zero.mp hi
    simp only [List.nil_append, getSchemeLoop, h1, h2, Bool.false_eq_true, if_false, if_true,
      hi0, List.length_nil, Nat.add_zero]
  | cons c t ih =>
    intro i hi hall
    rw [List.all_cons, Bool.and_eq_true] at hall
    obtain ⟨hc, ht⟩ := hall
    have hi0 : i ≠ 0 := Nat.pos_iff_ne_zero.mp hi
    have hrec := ih (i + 1) (Nat.succ_pos i) ht
    have harith1 : i + 1 + t.length = i + (c :: t).length := by
      simp only [List.length_cons]; omega
    rw [harith1] at hrec
    simp only [List.cons_append, getSchemeLoop]
    by_cases hl : (('a' ≤ c && c ≤ 'z') || ('A' ≤ c && c ≤ 'Z')) = true
    · rw [if_pos hl]; exact hrec
    · rw [if_neg hl]
      have hd : (('0' ≤ c && c ≤ '9') || c == '+' || c == '-' || c == '.') = true := by
        simp only [Bool.not_eq_true] at hl
        simp only [Bool.or_eq_true] at hc hl ⊢
        simp only [Bool.or_eq_false_iff] at hl
        rcases hc with ((((h | h) | h) | h) | h) | h
        · simp [h] at hl
        · simp [h] at hl
        · exact Or.inl (Or.inl (Or.inl h))
        · exact Or.inl (Or.inl (Or.inr h))
        · exact Or.inl (Or.inr h)
        · exact Or.inr h
      rw [if_pos hd, if_neg hi0]; exact hrec

/-- On a valid scheme name `getScheme` splits at the colon after it. -/
theorem getScheme_of_validScheme (sc rest : GoString) (h : router.validScheme sc = true) :
    getScheme (sc ++ ':' :: rest) = .ok (sc, rest) := by
  cases sc with
  | nil => simp [router.validScheme] at h
  | cons c t =>
    simp only [router.validScheme, Bool.and_eq_true] at h
    obtain ⟨hc, ht⟩ := h
    unfold getScheme
    simp only [List.cons_append, getSchemeLoop, hc, if_true]
    have := getSchemeLoop_tail (c :: (t ++ ':' :: rest)) rest t 1 (by omega) ht
    show getSchemeLoop (c :: (t ++ ':' :: rest)) 1 (t ++ ':' :: rest) = Except.ok (c :: t, rest)
    rw [this]
    have e1 : 1 + t.length = t.length + 1 := by omega
    simp [e1, List.take_append_eq_append_take, List.drop_append_eq_append_drop]

/-- A valid scheme name stays valid when a scheme byte is appended. -/
theorem validScheme_snoc (pre : GoString) (c : Char) (hpre : validScheme pre = true)
    (hc : (('a' ≤ c && c ≤ 'z') || ('A' ≤ c && c ≤ 'Z') ||
      ('0' ≤ c && c ≤ '9') || c == '+' || c == '-' || c == '.') = true) :
    validScheme (pre ++ [c]) = true := by
  cases pre with
  | nil => simp [validScheme] at hpre
  | cons d r =>
    simp only [validScheme, Bool.and_eq_true] at hpre
    simp only [List.cons_append, validScheme, List.all_append, List.all_cons, List.all_nil,
      Bool.and_true, Bool.and_eq_true]
    exact ⟨hpre.1, hpre.2, hc⟩

/-- What the loop of `getScheme` returns: no scheme and the whole string, or a valid scheme
name and the text behind its colon. -/
theorem getSchemeLoop_spec (raw scheme rest : GoString) :
    ∀ (t pre : GoString) (i : Nat), raw = pre ++ t → pre.length = i →
      (pre = [] ∨ validScheme pre = true) →
      getSchemeLoop raw i t = .ok (scheme, rest) →
      (scheme = [] ∧ rest = raw) ∨ (validScheme scheme = true ∧ raw = scheme ++ ':' :: rest) := by
  intro t
  induction t with
  | nil =>
    intro pre i _ _ _ h
    simp only [getSchemeLoop] at h
    injection h with h
    injection h with h1 h2
    exact Or.inl ⟨h1.symm, h2.symm⟩
  | cons c t ih =>
    intro pre i hraw hlen hpre h
    have hraw2 : raw = (pre ++ [c]) ++ t := by rw [hraw]; simp
    have hlen2 : (pre ++ [c]).length = i + 1 := by simp [hlen]
    simp only [getSchemeLoop] at h
    by_cases hl : (('a' ≤ c && c ≤ 'z') || ('A' ≤ c && c ≤ 'Z')) = true
    · rw [if_pos hl] at h
      refine ih (pre ++ [c]) (i + 1) hraw2 hlen2 (Or.inr ?_) h
      rcases hpre with rfl | hpre
      · simp only [List.nil_append, validScheme, List.all_nil, Bool.and_true]
        exact hl
      · apply validScheme_snoc pre c hpre
        simp only [Bool.or_eq_true] at hl ⊢
        exact Or.inl (Or.inl (Or.inl (Or.inl hl)))
    · rw [if_neg hl] at h
      by_cases hd : (('0' ≤ c && c ≤ '9') || c == '+' || c == '-' || c == '.') = true
      · rw [if_pos hd] at h
        by_cases hi : i = 0
        · rw [if_pos hi] at h
          injection h with h
          injection h with h1 h2
          exact Or.inl ⟨h1.symm, h2.symm⟩
        · rw [if_neg hi] at h
          refine ih (pre ++ [c]) (i + 1) hraw2 hlen2 (Or.inr ?_) h
          rcases hpre with rfl | hpre
          · exact absurd hlen.symm hi
          · apply validScheme_snoc pre c hpre
            simp only [Bool.or_eq_true] at hd ⊢
            rcases hd with ((hd | hd) | hd) | hd
            · exact Or.inl (Or.inl (Or.inl (Or.inr hd)))
            · exact Or.inl (Or.inl (Or.inr hd))
            · exact Or.inl (Or.inr hd)
            · exact Or.inr hd
      · rw [if_neg hd] at h
        by_cases hcol : c = ':'
        · rw [if_pos hcol] at h
          by_cases hi : i = 0
          · rw [if_pos hi] at h
            exact Except.noConfusion h
          · rw [if_neg hi] at h
            injection h with h
            injection h with h1 h2
            have hpre2 : validScheme pre = true := by
              rcases hpre with rfl | hpre
              · exact absurd hlen.symm hi
              · exact hpre
            have e1 : List.take i raw = pre := by
              rw [hraw, ← hlen]; exact List.take_left _ _
            have e2 : List.drop (i + 1) raw = t := by
              rw [hraw, ← hlen]
              simp
            right
            rw [← h1, ← h2, e1, e2, ← hcol]
            exact ⟨hpre2, hraw⟩
        · rw [if_neg hcol] at h
          injection h with h
          injection h with h1 h2
          exact Or.inl ⟨h1.symm, h2.symm⟩

/-- What `getScheme` returns, in terms of the scheme text: the string is `[scheme:]rest`. -/
theorem getScheme_spec (raw scheme rest : GoString) (h : getScheme raw = .ok (scheme, rest)) :
    ∃ sc : Option GoString, Option.all validScheme sc = true ∧ scheme = sc.getD [] ∧
      raw = schemeText sc ++ rest := by
  rcases getSchemeLoop_spec raw scheme rest raw [] 0 rfl rfl (Or.inl rfl) h with ⟨h1, h2⟩ | ⟨h1, h2⟩
  · exact ⟨none, rfl, h1, by simp [schemeText, h2]⟩
  · exact ⟨some scheme, by simpa using h1, rfl, by simp [schemeText, h2]⟩

/-- A control byte is one of the bytes `0 .. 31` and `127`. -/
theorem ctl_cases (c : Char) (h : (decide (c < ' ') || c == Char.ofNat 0x7f) = true) :
    ∃ n, n < 128 ∧ (n < 32 ∨ n = 127) ∧ c = Char.ofNat n := by
  simp only [Bool.or_eq_true, decide_eq_true_eq, beq_iff_eq] at h
  rcases h with h | h
  · refine ⟨c.toNat, ?_, ?_, (Char.ofNat_toNat c).symm⟩
    · have : c.toNat < 32 := h
      omega
    · left; exact h
  · exact ⟨127, by omega, Or.inr rfl, h⟩

end url

namespace router

/-- A string free of the bytes `stop` contains none of them. -/
theorem not_mem_of_freeOf (stop : List Char) (s : GoString) (c : Char) (hc : c ∈ stop)
    (h : freeOf stop s = true) : c ∉ s := by
  intro hm
  simp only [freeOf, List.all_eq_true] at h
  have := h c hm
  simp only [Bool.and_eq_true, Bool.not_eq_true', List.contains_eq_any_beq, List.any_eq_false,
    beq_iff_eq] at this
  exact this.2 c hc rfl

/-- A string free of the bytes `stop` contains no control byte. -/
theorem noCTL_of_freeOf (stop : List Char) (s : GoString) (h : freeOf stop s = true) :
    url.stringContainsCTLByte s = false := by
  simp only [freeOf, List.all_eq_true] at h
  simp only [url.stringContainsCTLByte, List.any_eq_false]
  intro c hm
  have := h c hm
  simp only [Bool.and_eq_true, Bool.not_eq_true'] at this
  simp [this.1]

/-- A byte of a scheme name is no control byte and none of `/`, `?`, `#`. -/
theorem schemeChar_free (c : Char)
    (h : (('a' ≤ c && c ≤ 'z') || ('A' ≤ c && c ≤ 'Z') ||
      ('0' ≤ c && c ≤ '9') || c == '+' || c == '-' || c == '.') = true) :
    (!(decide (c < ' ') || c == Char.ofNat 0x7f) && !(['/', '?', '#'].contains c)) = true := by
  by_cases hctl : (decide (c < ' ') || c == Char.ofNat 0x7f) = true
  · exfalso
    obtain ⟨n, hn, hn2, rfl⟩ := url.ctl_cases c hctl
    revert h
    revert n
    decide
  · have h1 : c ≠ '/' := by rintro rfl; revert h; decide
    have h2 : c ≠ '?' := by rintro rfl; revert h; decide
    have h3 : c ≠ '#' := by rintro rfl; revert h; decide
    simp only [Bool.not_eq_true] at hctl
    simp [hctl, h1, h2, h3]

/-- A valid scheme name is free of `/`, `?`, `#` and control bytes. -/
theorem freeOf_of_validScheme (sc : GoString) (h : validScheme sc = true) :
    freeOf ['/', '?', '#'] sc = true := by
  cases sc with
  | nil => rfl
  | cons c t =>
    simp only [validScheme, Bool.and_eq_true, List.all_eq_true] at h
    simp only [freeOf, List.all_eq_true]
    intro x hx
    rcases List.mem_cons.mp hx with rfl | hx
    · apply schemeChar_free
      have := h.1
      simp only [Bool.or_eq_true] at this ⊢
      exact Or.inl (Or.inl (Or.inl (Or.inl this)))
    · exact schemeChar_free x (h.2 x hx)

/-- How `parse` splits the query off: behind a text `A` without `?`, the query text is recognised as forced empty query, as query, or as absent. -/
theorem query_split (A : GoString) (q : Option GoString) (hA : '?' ∉ A) :
    (strings.HasSuffix (A ++ queryText q) ['?'] &&
        strings.CountByte (A ++ queryText q) '?' == 1) = decide (q = some []) ∧
    (q ≠ some [] → strings.Cut (A ++ queryText q) '?' = (A, q.getD [], q.isSome)) ∧
    (q = some [] → (A ++ queryText q).take ((A ++ queryText q).length - 1) = A) := by
  cases q with
  | none =>
    have hs : strings.HasSuffix A ['?'] = false := by
      cases hh : strings.HasSuffix A ['?'] with
      | false => rfl
      | true =>
        exfalso
        simp only [strings.HasSuffix, List.isSuffixOf_iff_suffix] at hh
        obtain ⟨t, ht⟩ := hh
        exact hA (by rw [← ht]; simp)
    simp [queryText, hs, strings.Cut_of_not_mem A '?' hA]
  | some q' =>
    by_cases hq : q' = []
    · subst hq
      have hs : strings.HasSuffix (A ++ ['?']) ['?'] = true := by
        simp only [strings.HasSuffix, List.isSuffixOf_iff_suffix]
        exact List.suffix_append A ['?']
      have hc : strings.CountByte (A ++ ['?']) '?' = 1 := by
        simp [strings.CountByte, List.count_eq_zero_of_not_mem hA]
      simp [queryText, hs, hc]
    · have hf : (strings.HasSuffix (A ++ '?' :: q') ['?'] &&
          strings.CountByte (A ++ '?' :: q') '?' == 1) = false := by
        cases hh : (strings.HasSuffix (A ++ '?' :: q') ['?'] &&
          strings.CountByte (A ++ '?' :: q') '?' == 1) with
        | false => rfl
        | true =>
          exfalso
          simp only [Bool.and_eq_true, strings.HasSuffix, List.isSuffixOf_iff_suffix,
            strings.CountByte, beq_iff_eq, List.count_append,
            List.count_eq_zero_of_not_mem hA, List.count_cons_self] at hh
          obtain ⟨⟨t, ht⟩, hc⟩ := hh
          have hq0 : List.count '?' q' = 0 := by omega
          have hnm : '?' ∉ q' := List.count_eq_zero.mp hq0
          have hl : (A ++ '?' :: q').getLast? = some '?' := by rw [← ht]; simp
          have hl2 : (A ++ '?' :: q').getLast? = q'.getLast? := by
            rw [List.getLast?_append]
            cases hq2 : q'.getLast? with
            | none => exact absurd (List.getLast?_eq_none_iff.mp hq2) hq
            | some z => simp [List.getLast?_cons, hq2]
          rw [hl2] at hl
          exact hnm (List.mem_of_getLast?_eq_some hl)
      refine ⟨?_, ?_, ?_⟩
      · simp [queryText, hf, hq]
      · intro _
        simp [queryText, strings.Cut_append A q' '?' hA]
      · intro h
        simp [hq] at h

/-- How `parse` splits the query off, read backwards: the string is `rest1 [?query]` with
`rest1`, free of `?`, the text `parse` goes on with. -/
theorem query_spec (rest0 : GoString) :
    ∃ (rest1 : GoString) (q : Option GoString),
      rest0 = rest1 ++ queryText q ∧ '?' ∉ rest1 ∧
      (if (strings.HasSuffix rest0 ['?'] && strings.CountByte rest0 '?' == 1) = true then
        rest0.take (rest0.length - 1) else (strings.Cut rest0 '?').1) = rest1 := by
  by_cases hforce : (strings.HasSuffix rest0 ['?'] && strings.CountByte rest0 '?' == 1) = true
  · rw [if_pos hforce]
    simp only [Bool.and_eq_true, strings.HasSuffix, List.isSuffixOf_iff_suffix,
      strings.CountByte, beq_iff_eq] at hforce
    obtain ⟨⟨t, ht⟩, hc⟩ := hforce
    subst ht
    have hnm : '?' ∉ t := by
      simp only [List.count_append, List.count_cons_self, List.count_nil] at hc
      exact List.count_eq_zero.mp (by omega)
    refine ⟨t, some [], by simp [queryText], hnm, ?_⟩
    simp
  · rw [if_neg hforce]
    obtain ⟨h1, h2, h3⟩ := strings.Cut_spec rest0 '?'
    cases hfound : (strings.Cut rest0 '?').2.2 with
    | true => exact ⟨_, some (strings.Cut rest0 '?').2.1, by simpa [queryText] using h2 hfound, h1, rfl⟩
    | false => exact ⟨_, none, by simpa [queryText] using (h3 hfound).1, h1, rfl⟩

/-- A string without control bytes and without the bytes `stop` is free of them. -/
theorem freeOf_intro (stop : List Char) (s : GoString)
    (hctl : url.stringContainsCTLByte s = false) (hstop : ∀ d ∈ stop, d ∉ s) :
    freeOf stop s = true := by
  simp only [url.stringContainsCTLByte, List.any_eq_false] at hctl
  simp only [freeOf, List.all_eq_true]
  intro c hc
  have h1 := hctl c hc
  have h2 : c ∉ stop := fun hd => hstop c hd hc
  simp only [Bool.not_eq_true] at h1
  simp [h1, h2]

end router

namespace url

open router encoding

/-- Control bytes of a concatenation. -/
theorem stringContainsCTLByte_append (a b : GoString) :
    stringContainsCTLByte (a ++ b) = (stringContainsCTLByte a || stringContainsCTLByte b) := by
  simp [stringContainsCTLByte, List.any_append]

/-- On `[scheme:]/rest`, `getScheme` returns the scheme, if there is one, and `/rest`. -/
theorem getScheme_schemeText (sc : Option GoString) (rest : GoString)
    (hsc : Option.all validScheme sc = true) :
    getScheme (schemeText sc ++ '/' :: rest) = .ok (sc.getD [], '/' :: rest) := by
  cases sc with
  | none =>
    have h1 : (('a' ≤ '/' && '/' ≤ 'z') || ('A' ≤ '/' && '/' ≤ 'Z')) = false := by decide
    have h2 : (('0' ≤ '/' && '/' ≤ '9') || '/' == '+' || '/' == '-' || '/' == '.') = false := by
      decide
    have h3 : '/' ≠ ':' := by decide
    simp only [schemeText, List.nil_append, getScheme, getSchemeLoop, h1, h2, h3,
      Bool.false_eq_true, if_false, Option.getD_none]
  | some x =>
    have e : schemeText (some x) ++ '/' :: rest = x ++ ':' :: '/' :: rest := by
      simp [schemeText]
    rw [e, getScheme_of_validScheme x _ (by simpa using hsc)]
    rfl

/-- The text `scheme:` contains no control byte and none of `?`, `#`. -/
theorem schemeText_free (sc : Option GoString) (hsc : Option.all validScheme sc = true) :
    freeOf ['?', '#'] (schemeText sc) = true := by
  cases sc with
  | none => rfl
  | some x =>
    have hx := freeOf_of_validScheme x (by simpa using hsc)
    simp only [freeOf, List.all_eq_true] at hx ⊢
    intro c hc
    simp only [schemeText, List.mem_append, List.mem_singleton] at hc
    rcases hc with hc | rfl
    · have := hx c hc
      simp only [Bool.and_eq_true, Bool.not_eq_true', List.contains_eq_any_beq,
        List.any_eq_false, beq_iff_eq, List.mem_cons, List.mem_singleton, forall_eq_or_imp,
        forall_eq, List.not_mem_nil, false_implies, implies_true, and_true] at this ⊢
      exact ⟨this.1, this.2.2⟩
    · decide

/-- The result of `parse` on `[scheme:]//authority path [?query]`. -/
theorem parse_noFragment_wellFormed (sc : Option GoString) (au p : GoString)
    (q : Option GoString) (usr : Option Userinfo) (host path : GoString)
    (hsc : Option.all validScheme sc = true) (hau : freeOf ['/', '?', '#'] au = true)
    (hpa : parseAuthority au = .ok (usr, host)) (hhost : host ≠ [])
    (hp1 : p.head? = some '/') (hp2 : freeOf ['?', '#'] p = true)
    (hp3 : unescape p encodePath = .ok path)
    (hq : ∀ q', q = some q' → freeOf ['#'] q' = true) :
    parse (schemeText sc ++ '/' :: '/' :: (au ++ (p ++ queryText q))) false =
      .ok { Scheme := strings.ToLower (sc.getD []), User := usr, Host := host, Path := path,
            RawPath := if p = escape path encodePath then [] else p,
            ForceQuery := decide (q = some []), RawQuery := q.getD [] } := by
  obtain ⟨p', rfl⟩ : ∃ p', p = '/' :: p' := by
    cases p with
    | nil => simp at hp1
    | cons c t => simp at hp1; exact ⟨t, by rw [hp1]⟩
  obtain ⟨a, au', rfl⟩ : ∃ a au', au = a :: au' := by
    cases au with
    | nil =>
      exfalso
      have h0 : parseAuthority [] = .ok (none, []) := by decide
      rw [h0] at hpa
      injection hpa with hpa
      injection hpa with _ hpa
      exact hhost hpa.symm
    | cons a t => exact ⟨a, t, rfl⟩
  have hqctl : stringContainsCTLByte (queryText q) = false := by
    cases q with
    | none => rfl
    | some q' =>
      have := noCTL_of_freeOf _ _ (hq q' rfl)
      simp only [queryText]
      simp only [stringContainsCTLByte, List.any_cons, Bool.or_eq_false_iff] at this ⊢
      exact ⟨by decide, this⟩
  have hctl : stringContainsCTLByte
      (schemeText sc ++ '/' :: '/' :: (a :: au' ++ ('/' :: p' ++ queryText q))) = false := by
    have e : schemeText sc ++ '/' :: '/' :: (a :: au' ++ ('/' :: p' ++ queryText q)) =
        schemeText sc ++ (['/', '/'] ++ (a :: au' ++ ('/' :: p' ++ queryText q))) := by simp
    rw [e, stringContainsCTLByte_append, stringContainsCTLByte_append,
      stringContainsCTLByte_append, stringContainsCTLByte_append,
      noCTL_of_freeOf _ _ (schemeText_free sc hsc), noCTL_of_freeOf _ _ hau,
      noCTL_of_freeOf _ _ hp2, hqctl]
    decide
  have hne : schemeText sc ++ '/' :: '/' :: (a :: au' ++ ('/' :: p' ++ queryText q)) ≠
      ['*'] := by
    intro e
    have := congrArg List.length e
    simp at this
    omega
  have hgs := getScheme_schemeText sc ('/' :: (a :: au' ++ ('/' :: p' ++ queryText q))) hsc
  have hA : '?' ∉ '/' :: '/' :: (a :: au' ++ '/' :: p') := by
    have h1 := not_mem_of_freeOf _ _ '?' (by simp) hau
    have h2 := not_mem_of_freeOf _ _ '?' (by simp) hp2
    simp only [List.mem_cons, List.mem_append, not_or] at h1 h2 ⊢
    exact ⟨by decide, by decide, ⟨h1.1, h1.2⟩, h2⟩
  have eA : '/' :: '/' :: (a :: au' ++ ('/' :: p' ++ queryText q)) =
      ('/' :: '/' :: (a :: au' ++ '/' :: p')) ++ queryText q := by simp
  obtain ⟨hf, hcut, htake⟩ := query_split ('/' :: '/' :: (a :: au' ++ '/' :: p')) q hA
  rw [← eA] at hf hcut htake
  have hslash : '/' ∉ a :: au' := not_mem_of_freeOf _ _ '/' (by simp) hau
  have hidx := strings.Index_slash (a :: au') p' hslash
  have ha : a ≠ '/' := fun e => hslash (by simp [e])
  unfold parse
  rw [if_neg (by rw [hctl]; decide), if_neg (by simp), if_neg hne]
  simp only [hgs, hf]
  have hrest1 : (if decide (q = some []) = true then
        List.take (('/' :: '/' :: (a :: au' ++ ('/' :: p' ++ queryText q))).length - 1)
          ('/' :: '/' :: (a :: au' ++ ('/' :: p' ++ queryText q)))
      else (strings.Cut ('/' :: '/' :: (a :: au' ++ ('/' :: p' ++ queryText q))) '?').1) =
      '/' :: '/' :: (a :: au' ++ '/' :: p') := by
    by_cases hq0 : q = some []
    · rw [if_pos (by simp [hq0])]; exact htake hq0
    · rw [if_neg (by simp [hq0]), hcut hq0]
  have hrq : (if decide (q = some []) = true then []
      else (strings.Cut ('/' :: '/' :: (a :: au' ++ ('/' :: p' ++ queryText q))) '?').2.1) =
      q.getD [] := by
    by_cases hq0 : q = some []
    · rw [if_pos (by simp [hq0]), hq0]; rfl
    · rw [if_neg (by simp [hq0]), hcut hq0]
  rw [hrest1, hrq]
  have hpre1 : strings.HasPrefix ('/' :: '/' :: (a :: au' ++ '/' :: p')) ['/'] = true := by
    simp [strings.HasPrefix]
  have hpre2 : strings.HasPrefix ('/' :: '/' :: (a :: au' ++ '/' :: p')) ['/', '/'] = true := by
    simp [strings.HasPrefix]
  have hpre3 : strings.HasPrefix ('/' :: '/' :: (a :: au' ++ '/' :: p')) ['/', '/', '/'] =
      false := by
    simp [strings.HasPrefix, List.isPrefixOf, Ne.symm ha]
  have hdrop : List.drop 2 ('/' :: '/' :: (a :: au' ++ '/' :: p')) = a :: au' ++ '/' :: p' :=
    rfl
  simp only [hpre1, hpre2, hpre3, hdrop, hidx, Bool.not_true, Bool.not_false,
    Bool.false_eq_true, false_and, if_false, and_self, or_true, true_and, if_true,
    List.take_left, List.drop_left, hpa, URL.setPath, hp3]
  by_cases hraw : '/' :: p' = escape path encodePath
  · rw [if_pos hraw, if_pos hraw]
  · rw [if_neg hraw, if_neg hraw]

/-- Unescaping a non-empty string gives a non-empty string. -/
theorem unescape_ne_nil (s t : GoString) (mode : encoding) (h : unescape s mode = .ok t)
    (hs : s ≠ []) : t ≠ [] := by
  unfold unescape at h
  cases hc : unescapeCheck mode s with
  | some e => simp [hc] at h
  | none =>
    simp only [hc] at h
    split at h
    · injection h with h; rw [← h]; exact hs
    · injection h with h
      rw [← h]
      cases s with
      | nil => exact absurd rfl hs
      | cons c rest =>
        unfold unescapeDecode
        by_cases hp : c = '%'
        · subst hp
          match rest, hc with
          | [], hc => simp [unescapeCheck] at hc
          | [a], hc => simp [unescapeCheck] at hc
          | a :: b :: rest2, _ => simp
        · simp only [hp, if_false]
          split <;> simp

/-- The escaped path of a URL whose path was set from a valid encoded `p` is `p`. -/
theorem EscapedPath_of_valid (u : URL) (p path : GoString) (hp : p ≠ [])
    (hv : p = escape path encodePath ∨ validEncoded p encodePath = true)
    (hu : unescape p encodePath = .ok path)
    (hstar : path ≠ ['*']) (hP : u.Path = path)
    (hR : u.RawPath = if p = escape path encodePath then [] else p) :
    URL.EscapedPath u = p := by
  unfold URL.EscapedPath
  rw [hP, hR]
  by_cases he : p = escape path encodePath
  · rw [if_pos he, if_neg (by simp), if_neg hstar]
    exact he.symm
  · rw [if_neg he, if_pos ⟨hp, hv.resolve_left he, hu⟩]

/-- The escaped fragment of a URL whose fragment was set from a valid encoded `f` is `f`. -/
theorem EscapedFragment_of_valid (u : URL) (f frag : GoString) (hf : f ≠ [])
    (hv : f = escape frag encodeFragment ∨ validEncoded f encodeFragment = true)
    (hu : unescape f encodeFragment = .ok frag)
    (hF : u.Fragment = frag)
    (hR : u.RawFragment = if f = escape frag encodeFragment then [] else f) :
    URL.EscapedFragment u = f := by
  unfold URL.EscapedFragment
  rw [hF, hR]
  by_cases he : f = escape frag encodeFragment
  · rw [if_pos he, if_neg (by simp)]
    exact he.symm
  · rw [if_neg he, if_pos ⟨hf, hv.resolve_left he, hu⟩]

/-- The result of `url.Parse` on `[scheme:]//authority path [?query] [#fragment]`. -/
theorem Parse_wellFormed (sc : Option GoString) (au p : GoString) (q f : Option GoString)
    (usr : Option Userinfo) (host path frag : GoString)
    (hsc : Option.all validScheme sc = true) (hau : freeOf ['/', '?', '#'] au = true)
    (hpa : parseAuthority au = .ok (usr, host)) (hhost : host ≠ [])
    (hp1 : p.head? = some '/') (hp2 : freeOf ['?', '#'] p = true)
    (hp3 : unescape p encodePath = .ok path)
    (hq : ∀ q', q = some q' → freeOf ['#'] q' = true)
    (hf : ∀ f', f = some f' → f' ≠ [])
    (hfr : unescape (f.getD []) encodeFragment = .ok frag) :
    Parse (schemeText sc ++ '/' :: '/' :: (au ++ (p ++ (queryText q ++ fragmentText f)))) =
      .ok { Scheme := strings.ToLower (sc.getD []), User := usr, Host := host, Path := path,
            RawPath := if p = escape path encodePath then [] else p,
            ForceQuery := decide (q = some []), RawQuery := q.getD [],
            Fragment := frag,
            RawFragment := if f.getD [] = escape frag encodeFragment then [] else f.getD [] } := by
  have hbase := parse_noFragment_wellFormed sc au p q usr host path hsc hau hpa hhost hp1 hp2
    hp3 hq
  have hhash : '#' ∉ schemeText sc ++ '/' :: '/' :: (au ++ (p ++ queryText q)) := by
    have h1 := not_mem_of_freeOf _ _ '#' (by simp) (schemeText_free sc hsc)
    have h2 := not_mem_of_freeOf _ _ '#' (by simp) hau
    have h3 := not_mem_of_freeOf _ _ '#' (by simp) hp2
    have h4 : '#' ∉ queryText q := by
      cases q with
      | none => simp [queryText]
      | some q' =>
        have := not_mem_of_freeOf _ _ '#' (by simp) (hq q' rfl)
        simp only [queryText, List.mem_cons, not_or]
        exact ⟨by decide, this⟩
    simp only [List.mem_append, List.mem_cons, not_or]
    exact ⟨h1, by decide, by decide, h2, h3, h4⟩
  unfold Parse
  cases f with
  | none =>
    have e : schemeText sc ++ '/' :: '/' :: (au ++ (p ++ (queryText q ++ fragmentText none))) =
        schemeText sc ++ '/' :: '/' :: (au ++ (p ++ queryText q)) := by simp [fragmentText]
    have hfrag : frag = [] := by
      have : unescape [] encodeFragment = .ok [] := by decide
      simp only [Option.getD_none] at hfr
      rw [this] at hfr
      injection hfr with hfr
      exact hfr.symm
    subst hfrag
    rw [e, strings.Cut_of_not_mem _ _ hhash]
    simp only [hbase, if_true]
    simp [escape]
  | some f' =>
    have e : schemeText sc ++ '/' :: '/' ::
          (au ++ (p ++ (queryText q ++ fragmentText (some f')))) =
        (schemeText sc ++ '/' :: '/' :: (au ++ (p ++ queryText q))) ++ '#' :: f' := by
      simp [fragmentText]
    simp only [Option.getD_some] at hfr ⊢
    rw [e, strings.Cut_append _ _ _ hhash]
    simp only [hbase, hf f' rfl, if_false, URL.setFragment, hfr]
    by_cases hraw : f' = escape frag encodeFragment
    · rw [if_pos hraw, if_pos hraw]
    · rw [if_neg hraw, if_neg hraw]

/-- The serialisation of a URL without opaque part whose path is written as `p`, a text that
begins with `/`. -/
theorem String_of_parts (u : URL) (p : GoString) (q f : Option GoString)
    (ho : u.Opaque = []) (hom : u.OmitHost = false) (hpath : u.Path ≠ [])
    (hp : URL.EscapedPath u = p) (hp1 : p.head? = some '/')
    (hfq : u.ForceQuery = decide (q = some [])) (hrq : u.RawQuery = q.getD [])
    (hfr : match f with
      | none => u.Fragment = []
      | some f' => u.Fragment ≠ [] ∧ URL.EscapedFragment u = f') :
    URL.String u =
      (if u.Scheme = [] then [] else u.Scheme ++ [':']) ++
      ((if u.Scheme = [] ∧ u.Host = [] ∧ u.User = none then []
        else '/' :: '/' :: (userinfoText u.User ++ escape u.Host encodeHost)) ++
       (p ++ (queryText q ++ fragmentText f))) := by
  obtain ⟨t, rfl⟩ : ∃ t, p = '/' :: t := by
    cases p with
    | nil => simp at hp1
    | cons c t => simp at hp1; exact ⟨t, by rw [hp1]⟩
  have hquery : (if u.ForceQuery = true ∨ u.RawQuery ≠ [] then '?' :: u.RawQuery else []) =
      queryText q := by
    rw [hfq, hrq]
    cases q with
    | none => simp [queryText]
    | some q' =>
      by_cases hq' : q' = []
      · simp [queryText, hq']
      · simp [queryText, hq']
  have hfragment : (if u.Fragment ≠ [] then '#' :: URL.EscapedFragment u else []) =
      fragmentText f := by
    cases f with
    | none => simp only [] at hfr; simp [hfr, fragmentText]
    | some f' => simp only [] at hfr; simp [hfr.1, hfr.2, fragmentText]
  have huser : (match u.User with
      | some ui => Userinfo.String ui ++ ['@']
      | none => []) = userinfoText u.User := by
    cases u.User <;> rfl
  have hesc : (if u.Host ≠ [] then escape u.Host encodeHost else []) = escape u.Host encodeHost := by
    by_cases hh : u.Host = []
    · rw [hh]; rfl
    · rw [if_pos hh]
  have hcut : strings.Cut ('/' :: t) '/' = ([], t, true) := by simp [strings.Cut]
  unfold URL.String
  simp only [hquery, hfragment, huser, hesc, ho, hom, hp, hcut, hpath]
  by_cases hs : u.Scheme = []
  · by_cases hh : u.Host = []
    · cases hu : u.User with
      | none => simp [hs, hh, hu, userinfoText, strings.ContainsByte]
      | some ui => simp [hs, hh, hu, userinfoText, strings.ContainsByte, escape]
    · simp [hs, hh, strings.ContainsByte]
  · simp [hs, hpath, strings.ContainsByte]

/-- What a successful `setPath` leaves: the decoded path, and the other fields as they were. -/
theorem setPath_spec (u u2 : URL) (p : GoString) (h : URL.setPath u p = .ok u2) :
    u2.Host = u.Host ∧ unescape p encodePath = .ok u2.Path ∧ u2.Fragment = u.Fragment := by
  unfold URL.setPath at h
  cases hu : unescape p encodePath with
  | error e => rw [hu] at h; exact Except.noConfusion h
  | ok path =>
    simp only [hu] at h
    split at h
    · injection h with h; subst h; exact ⟨rfl, rfl, rfl⟩
    · injection h with h; subst h; exact ⟨rfl, rfl, rfl⟩

/-- The shape of a string that `parse` gives a host: `[scheme:]//authority path [?query]`. -/
theorem parse_shape (raw : GoString) (u0 : URL) (hp : parse raw false = .ok u0)
    (hh : u0.Host ≠ []) (hhash : '#' ∉ raw) :
    ∃ (sc : Option GoString) (au p : GoString) (q : Option GoString) (usr : Option Userinfo),
      raw = schemeText sc ++ '/' :: '/' :: (au ++ (p ++ queryText q)) ∧
      Option.all validScheme sc = true ∧
      freeOf ['/', '?', '#'] au = true ∧
      parseAuthority au = .ok (usr, u0.Host) ∧
      (p = [] ∨ p.head? = some '/') ∧
      freeOf ['?', '#'] p = true ∧
      unescape p encodePath = .ok u0.Path ∧
      (∀ q', q = some q' → freeOf ['#'] q' = true) ∧
      u0.Fragment = [] := by
  unfold parse at hp
  by_cases hctl : stringContainsCTLByte raw = true
  · rw [if_pos hctl] at hp
    exact Except.noConfusion hp
  rw [if_neg hctl, if_neg (by simp)] at hp
  by_cases hstar : raw = ['*']
  · rw [if_pos hstar] at hp
    injection hp with hp
    subst hp
    exact absurd rfl hh
  rw [if_neg hstar] at hp
  cases hgs : getScheme raw with
  | error e => rw [hgs] at hp; exact Except.noConfusion hp
  | ok pr =>
    obtain ⟨scheme, rest0⟩ := pr
    obtain ⟨sc, hsc, hscheme, hraw⟩ := getScheme_spec raw scheme rest0 hgs
    obtain ⟨rest1, q, hrest0, hq1, hrest1eq⟩ := query_spec rest0
    simp only [hgs, hrest1eq] at hp
    split at hp
    · injection hp with hp; subst hp; exact absurd rfl hh
    · split at hp
      · exact Except.noConfusion hp
      · split at hp
        · exact Except.noConfusion hp
        · split at hp
          · rename_i hauth
            have hpre : strings.HasPrefix rest1 ['/', '/'] = true := hauth.2
            obtain ⟨a0, ha0⟩ : ∃ a0, rest1 = '/' :: '/' :: a0 := by
              simp only [strings.HasPrefix, List.isPrefixOf_iff_prefix] at hpre
              obtain ⟨a0, ha0⟩ := hpre
              exact ⟨a0, ha0.symm⟩
            subst ha0
            simp only [List.drop_succ_cons, List.drop_zero] at hp
            obtain ⟨hi1, hi2⟩ := strings.Index_slash_spec a0
            -- authority text `au` and path text `p`
            obtain ⟨au, p, hsplit, hau1, hp1, hau, hpp⟩ : ∃ au p, a0 = au ++ p ∧ '/' ∉ au ∧
                (p = [] ∨ p.head? = some '/') ∧
                (match strings.Index a0 ['/'] with
                  | some i => List.take i a0
                  | none => a0) = au ∧
                (match strings.Index a0 ['/'] with
                  | some i => List.drop i a0
                  | none => []) = p := by
              cases hidx : strings.Index a0 ['/'] with
              | some i =>
                exact ⟨a0.take i, a0.drop i, (List.take_append_drop i a0).symm,
                  (hi1 i hidx).1, Or.inr (hi1 i hidx).2, rfl, rfl⟩
              | none => exact ⟨a0, [], by simp, hi2 hidx, Or.inl rfl, rfl, rfl⟩
            rw [hau, hpp] at hp
            cases hpa : parseAuthority au with
            | error e => rw [hpa] at hp; exact Except.noConfusion hp
            | ok pr2 =>
              obtain ⟨user, host⟩ := pr2
              simp only [hpa] at hp
              obtain ⟨hhost, hpath, hfrag0⟩ := setPath_spec _ _ _ hp
              have hshape : raw = schemeText sc ++ '/' :: '/' :: (au ++ (p ++ queryText q)) := by
                rw [hraw, hrest0, hsplit]; simp
              have hctl2 : stringContainsCTLByte
                  (schemeText sc ++ (['/', '/'] ++ (au ++ (p ++ queryText q)))) = false := by
                have : stringContainsCTLByte raw = false := by simpa using hctl
                rw [hshape] at this
                simpa using this
              simp only [stringContainsCTLByte_append, Bool.or_eq_false_iff] at hctl2
              obtain ⟨_, _, hcau, hcp, hcq⟩ := hctl2
              have hhash2 : '#' ∉ au ∧ '#' ∉ p ∧ '#' ∉ queryText q := by
                rw [hshape] at hhash
                simp only [List.mem_append, List.mem_cons, not_or] at hhash
                exact ⟨hhash.2.2.2.1, hhash.2.2.2.2.1, hhash.2.2.2.2.2⟩
              have hq2 : '?' ∉ au ∧ '?' ∉ p := by
                rw [hsplit] at hq1
                simp only [List.mem_append, List.mem_cons, not_or] at hq1
                exact ⟨hq1.2.2.1, hq1.2.2.2⟩
              refine ⟨sc, au, p, q, user, hshape, hsc, ?_, ?_, hp1, ?_, hpath, ?_, hfrag0⟩
              · apply freeOf_intro _ _ hcau
                intro d hd
                simp only [List.mem_cons, List.mem_singleton, List.not_mem_nil, or_false] at hd
                rcases hd with rfl | rfl | rfl
                · exact hau1
                · exact hq2.1
                · exact hhash2.1
              · rw [hhost]; exact hpa
              · apply freeOf_intro _ _ hcp
                intro d hd
                simp only [List.mem_cons, List.mem_singleton, List.not_mem_nil, or_false] at hd
                rcases hd with rfl | rfl
                · exact hq2.2
                · exact hhash2.2.1
              · intro q' hq'
                subst hq'
                simp only [queryText, stringContainsCTLByte, List.any_cons,
                  Bool.or_eq_false_iff] at hcq
                simp only [queryText, List.mem_cons, not_or] at hhash2
                apply freeOf_intro _ _ hcq.2
                intro d hd
                simp only [List.mem_singleton] at hd
                subst hd
                exact hhash2.2.2.2
          · split at hp
            · exact absurd (setPath_spec _ _ _ hp).1 hh
            · exact absurd (setPath_spec _ _ _ hp).1 hh

/-- What a successful `setFragment` leaves: the decoded fragment, and host and path as they
were. -/
theorem setFragment_spec (u u2 : URL) (f : GoString) (h : URL.setFragment u f = .ok u2) :
    u2.Host = u.Host ∧ u2.Path = u.Path ∧ unescape f encodeFragment = .ok u2.Fragment := by
  unfold URL.setFragment at h
  cases hu : unescape f encodeFragment with
  | error e => rw [hu] at h; exact Except.noConfusion h
  | ok frag =>
    simp only [hu] at h
    split at h
    · injection h with h; subst h; exact ⟨rfl, rfl, rfl⟩
    · injection h with h; subst h; exact ⟨rfl, rfl, rfl⟩

/-- The shape of a string that `url.Parse` gives a host:
`[scheme:]//authority path [?query] [#fragment]`. -/
theorem Parse_shape (loc : GoString) (u : URL) (hp : Parse loc = .ok u) (hh : u.Host ≠ []) :
    ∃ (sc : Option GoString) (au p : GoString) (q f : Option GoString) (usr : Option Userinfo),
      loc = schemeText sc ++ '/' :: '/' :: (au ++ (p ++ (queryText q ++ fragmentText f))) ∧
      Option.all validScheme sc = true ∧
      freeOf ['/', '?', '#'] au = true ∧
      parseAuthority au = .ok (usr, u.Host) ∧
      (p = [] ∨ p.head? = some '/') ∧
      freeOf ['?', '#'] p = true ∧
      unescape p encodePath = .ok u.Path ∧
      (∀ q', q = some q' → freeOf ['#'] q' = true) ∧
      unescape (f.getD []) encodeFragment = .ok u.Fragment ∧
      (f = some [] → (strings.Cut loc '#').2.2 = true ∧ (strings.Cut loc '#').2.1 = []) := by
  unfold Parse at hp
  obtain ⟨hc1, hc2, hc3⟩ := strings.Cut_spec loc '#'
  cases hparse : parse (strings.Cut loc '#').1 false with
  | error e => simp only [hparse] at hp; exact Except.noConfusion hp
  | ok url0 =>
    simp only [hparse] at hp
    have hunesc0 : unescape [] encodeFragment = .ok [] := by decide
    by_cases hfe : (strings.Cut loc '#').2.1 = []
    · rw [if_pos hfe] at hp
      injection hp with hp
      subst hp
      obtain ⟨sc, au, p, q, usr, hshape, hsc, hau, hpa, hp1, hp2, hp3, hq, hfrag⟩ :=
        parse_shape _ _ hparse hh hc1
      cases hfound : (strings.Cut loc '#').2.2 with
      | true =>
        refine ⟨sc, au, p, q, some [], usr, ?_, hsc, hau, hpa, hp1, hp2, hp3, hq, ?_, ?_⟩
        · have := hc2 hfound
          rw [hfe, hshape] at this
          exact this.trans (by simp [fragmentText])
        · rw [hfrag]; exact hunesc0
        · intro _; exact ⟨rfl, hfe⟩
      | false =>
        refine ⟨sc, au, p, q, none, usr, ?_, hsc, hau, hpa, hp1, hp2, hp3, hq, ?_, ?_⟩
        · have := (hc3 hfound).1
          rw [hshape] at this
          exact this.trans (by simp [fragmentText])
        · rw [hfrag]; exact hunesc0
        · intro h; exact Option.noConfusion h
    · rw [if_neg hfe] at hp
      obtain ⟨hhost, hpath, hfrag⟩ := setFragment_spec _ _ _ hp
      obtain ⟨sc, au, p, q, usr, hshape, hsc, hau, hpa, hp1, hp2, hp3, hq, _⟩ :=
        parse_shape _ _ hparse (by rw [← hhost]; exact hh) hc1
      have hfound : (strings.Cut loc '#').2.2 = true := by
        cases hf : (strings.Cut loc '#').2.2 with
        | true => rfl
        | false => exact absurd (hc3 hf).2 hfe
      refine ⟨sc, au, p, q, some (strings.Cut loc '#').2.1, usr, ?_, hsc, hau, ?_, hp1, hp2, ?_,
        hq, hfrag, ?_⟩
      · have := hc2 hfound
        rw [hshape] at this
        exact this.trans (by simp [fragmentText])
      · rw [hhost]; exact hpa
      · rw [hpath]; exact hp3
      · intro h
        injection h with h
        exact absurd h hfe

/-- A byte of an escaped text is a byte of the text that needs no escaping, or one of the
bytes an escape is written with. -/
theorem mem_escape (s : GoString) (mode : encoding) (c : Char) (hc : c ∈ escape s mode) :
    (c ∈ s ∧ shouldEscape c mode = false) ∨ c ∈ "%+0123456789ABCDEF".toList := by
  induction s with
  | nil => simp [escape] at hc
  | cons x t ih =>
    unfold escape at hc
    have hhex : ∀ n, n < 16 → upperhex n ∈ "%+0123456789ABCDEF".toList := by decide
    split at hc
    · rename_i hx
      split at hc
      · rcases List.mem_cons.mp hc with rfl | hc
        · exact Or.inr (by decide)
        · rcases ih hc with h1 | h1
          · exact Or.inl ⟨List.mem_cons_of_mem _ h1.1, h1.2⟩
          · exact Or.inr h1
      · rcases List.mem_cons.mp hc with rfl | hc
        · exact Or.inr (by decide)
        rcases List.mem_cons.mp hc with rfl | hc
        · by_cases hn : x.toNat / 16 < 16
          · exact Or.inr (hhex _ hn)
          · refine Or.inr ?_
            have : upperhex (x.toNat / 16) = '0' := by
              unfold upperhex
              exact List.getD_eq_default _ _ (by simp; omega)
            rw [this]; decide
        rcases List.mem_cons.mp hc with rfl | hc
        · exact Or.inr (hhex _ (Nat.mod_lt _ (by decide)))
        · rcases ih hc with h1 | h1
          · exact Or.inl ⟨List.mem_cons_of_mem _ h1.1, h1.2⟩
          · exact Or.inr h1
    · rename_i hx
      rcases List.mem_cons.mp hc with rfl | hc
      · exact Or.inl ⟨List.mem_cons_self _ _, by simpa using hx⟩
      · rcases ih hc with h1 | h1
        · exact Or.inl ⟨List.mem_cons_of_mem _ h1.1, h1.2⟩
        · exact Or.inr h1

/-- An escaped text has no byte that the mode escapes, the bytes of an escape apart. -/
theorem not_mem_escape (s : GoString) (mode : encoding) (c : Char)
    (hc : shouldEscape c mode = true) (hx : c ∉ "%+0123456789ABCDEF".toList) :
    c ∉ escape s mode := by
  intro hm
  rcases mem_escape s mode c hm with h1 | h1
  · rw [hc] at h1; exact Bool.noConfusion h1.2
  · exact hx h1

/-- The text `userinfo@` has no `/`. -/
theorem slash_not_mem_userinfoText (usr : Option Userinfo) : '/' ∉ userinfoText usr := by
  cases usr with
  | none => simp [userinfoText]
  | some ui =>
    have h1 := not_mem_escape ui.username encodeUserPassword '/' (by decide) (by decide)
    have h2 := not_mem_escape ui.password encodeUserPassword '/' (by decide) (by decide)
    simp only [userinfoText, Userinfo.String, List.mem_append, not_or]
    refine ⟨⟨h1, ?_⟩, by decide⟩
    split
    · simp only [List.mem_cons, not_or]
      exact ⟨by decide, h2⟩
    · simp

end url

/-! ## The redirect-rewriting proxy -/

namespace router

open http url encoding

/-- An allow-listed path is not `*`. -/
theorem isOAuthPath_ne_star (path : GoString) (h : isOAuthPath path = true) : path ≠ ['*'] := by
  rintro rfl
  revert h
  decide

/-- A path with an allow-listed prefix is not empty. -/
theorem isOAuthPath_ne_nil (path : GoString) (h : isOAuthPath path = true) : path ≠ [] := by
  rintro rfl
  exact absurd h (by decide)

/-- The rewrite of a well-formed `Location`: the scheme and the authority are replaced, the
text from the path on is kept. -/
theorem rewrite_wellFormed (resp : Response) (h s : GoString) (sc : Option GoString)
    (au p : GoString) (q f : Option GoString) (usr : Option Userinfo)
    (host path frag : GoString)
    (hstatus : 300 ≤ resp.StatusCode ∧ resp.StatusCode < 400)
    (hloc : Header.Get resp.Header "Location".toList =
      schemeText sc ++ "//".toList ++ au ++ p ++ queryText q ++ fragmentText f)
    (hsc : Option.all validScheme sc = true)
    (hau : freeOf ['/', '?', '#'] au = true)
    (hpa : parseAuthority au = .ok (usr, host)) (hhost : host ≠ [])
    (hp1 : p.head? = some '/') (hp2 : freeOf ['?', '#'] p = true)
    (hpv : p = escape path encodePath ∨ validEncoded p encodePath = true)
    (hp3 : unescape p encodePath = .ok path) (hoauth : isOAuthPath path = true)
    (hq : ∀ q', q = some q' → freeOf ['#'] q' = true)
    (hf : ∀ f', f = some f' → f' ≠ [] ∧
      (f' = escape frag encodeFragment ∨ validEncoded f' encodeFragment = true))
    (hfr : unescape (f.getD []) encodeFragment = .ok frag) :
    rewriteOAuthRedirect resp h s =
      ⟨none,
       { resp with Header := (Header.Set resp.Header "Location".toList
          (originText s h usr ++ p ++ queryText q ++ fragmentText f)) },
       ["hydra rewrite: ".toList ++
          (schemeText sc ++ "//".toList ++ au ++ p ++ queryText q ++ fragmentText f) ++
          " -> ".toList ++
          (originText s h usr ++ p ++ queryText q ++ fragmentText f)]⟩ := by
  have hpne : p ≠ [] := by rintro rfl; simp at hp1
  have hparse := Parse_wellFormed sc au p q f usr host path frag hsc hau hpa hhost hp1
    hp2 hp3 hq (fun f' hf' => (hf f' hf').1) hfr
  have eloc : schemeText sc ++ "//".toList ++ au ++ p ++ queryText q ++ fragmentText f =
      schemeText sc ++ '/' :: '/' :: (au ++ (p ++ (queryText q ++ fragmentText f))) := by
    simp
  have hlocne : Header.Get resp.Header "Location".toList ≠ [] := by
    rw [hloc, eloc]; simp
  have hstr : URL.String
      { ({ Scheme := strings.ToLower (sc.getD []), User := usr, Host := host, Path := path,
            RawPath := if p = escape path encodePath then [] else p,
            ForceQuery := decide (q = some []), RawQuery := q.getD [],
            Fragment := frag,
            RawFragment := if f.getD [] = escape frag encodeFragment then [] else f.getD [] } :
          URL) with Host := h, Scheme := s } =
      originText s h usr ++ p ++ queryText q ++ fragmentText f := by
    have := String_of_parts
      { ({ Scheme := strings.ToLower (sc.getD []), User := usr, Host := host, Path := path,
            RawPath := if p = escape path encodePath then [] else p,
            ForceQuery := decide (q = some []), RawQuery := q.getD [],
            Fragment := frag,
            RawFragment := if f.getD [] = escape frag encodeFragment then [] else f.getD [] } :
          URL) with Host := h, Scheme := s } p q f rfl rfl (isOAuthPath_ne_nil path hoauth)
      (EscapedPath_of_valid _ p path hpne hpv hp3 (isOAuthPath_ne_star path hoauth) rfl rfl)
      hp1 rfl rfl
      (by
        cases f with
        | none =>
          have : unescape [] encodeFragment = .ok [] := by decide
          simp only [Option.getD_none] at hfr
          rw [this] at hfr
          injection hfr with hfr
          exact hfr.symm
        | some f' =>
          simp only [Option.getD_some] at hfr
          exact ⟨unescape_ne_nil f' frag _ hfr (hf f' rfl).1,
            EscapedFragment_of_valid _ f' frag (hf f' rfl).1 (hf f' rfl).2 hfr rfl rfl⟩)
    rw [this]
    simp [originText]
  unfold rewriteOAuthRedirect
  rw [if_neg (by omega)]
  simp only [hlocne, if_false]
  rw [hloc, eloc, hparse]
  simp only [hhost, if_false, hoauth, Bool.not_true, Bool.false_eq_true]
  rw [hstr, ← eloc]

/-- The rewrite of a `Location` in encoded form: the `Location` is `[scheme:]//authority`
followed by a text `tail` that begins with the `/` of the path, and the rewrite replaces the
scheme and the host and keeps `tail`. -/
theorem rewrite_shape (resp : Response) (h s : GoString) (u : URL)
    (hstatus : 300 ≤ resp.StatusCode ∧ resp.StatusCode < 400)
    (hparse : url.Parse (Header.Get resp.Header "Location".toList) = .ok u)
    (hhost : u.Host ≠ []) (hoauth : isOAuthPath u.Path = true)
    (hpv : u.RawPath = [] ∨ validEncoded u.RawPath encodePath = true)
    (hfe : (strings.Cut (Header.Get resp.Header "Location".toList) '#').2.2 = true →
      (strings.Cut (Header.Get resp.Header "Location".toList) '#').2.1 ≠ [])
    (hfv : u.RawFragment = [] ∨ validEncoded u.RawFragment encodeFragment = true) :
    ∃ (sc : Option GoString) (au tail : GoString),
      Header.Get resp.Header "Location".toList = schemeText sc ++ "//".toList ++ au ++ tail ∧
      Option.all validScheme sc = true ∧ u.Scheme = strings.ToLower (sc.getD []) ∧
      '/' ∉ au ∧ parseAuthority au = .ok (u.User, u.Host) ∧ tail.head? = some '/' ∧
      rewriteOAuthRedirect resp h s =
        ⟨none,
         { resp with Header := (Header.Set resp.Header "Location".toList
            (originText s h u.User ++ tail)) },
         ["hydra rewrite: ".toList ++ Header.Get resp.Header "Location".toList ++
            " -> ".toList ++ (originText s h u.User ++ tail)]⟩ := by
  obtain ⟨sc, au, p, q, f, usr, hshape, hsc, hau, hpa, hp1, hp2, hp3, hq, hfr, hfempty⟩ :=
    Parse_shape _ u hparse hhost
  have hpne : p ≠ [] := by
    rintro rfl
    have h0 : unescape [] encodePath = .ok [] := by decide
    rw [h0] at hp3
    injection hp3 with hp3
    rw [← hp3] at hoauth
    exact absurd hoauth (by decide)
  have hp1 : p.head? = some '/' := hp1.resolve_left hpne
  have hf1 : ∀ f', f = some f' → f' ≠ [] := by
    intro f' e hf0
    have := hfempty (by rw [e, hf0])
    exact hfe this.1 this.2
  have hP := Parse_wellFormed sc au p q f usr u.Host u.Path u.Fragment hsc hau hpa hhost hp1 hp2
    hp3 hq hf1 hfr
  rw [← hshape, hparse] at hP
  injection hP with hU
  have hUser : u.User = usr := congrArg URL.User hU
  have hScheme : u.Scheme = strings.ToLower (sc.getD []) := congrArg URL.Scheme hU
  have hRaw : u.RawPath = if p = escape u.Path encodePath then [] else p :=
    congrArg URL.RawPath hU
  have hRawF : u.RawFragment =
      if f.getD [] = escape u.Fragment encodeFragment then [] else f.getD [] :=
    congrArg URL.RawFragment hU
  have hpv2 : p = escape u.Path encodePath ∨ validEncoded p encodePath = true := by
    by_cases he : p = escape u.Path encodePath
    · exact Or.inl he
    · rw [if_neg he] at hRaw
      rw [hRaw] at hpv
      exact Or.inr (hpv.resolve_left hpne)
  have hf2 : ∀ f', f = some f' → f' ≠ [] ∧
      (f' = escape u.Fragment encodeFragment ∨ validEncoded f' encodeFragment = true) := by
    intro f' e
    subst e
    refine ⟨hf1 f' rfl, ?_⟩
    simp only [Option.getD_some] at hRawF
    by_cases he : f' = escape u.Fragment encodeFragment
    · exact Or.inl he
    · rw [if_neg he] at hRawF
      rw [hRawF] at hfv
      exact Or.inr (hfv.resolve_left (hf1 f' rfl))
  have hloc : Header.Get resp.Header "Location".toList =
      schemeText sc ++ "//".toList ++ au ++ p ++ queryText q ++ fragmentText f := by
    rw [hshape]; simp
  have hR := rewrite_wellFormed resp h s sc au p q f usr u.Host u.Path u.Fragment hstatus
    hloc hsc hau hpa hhost hp1 hp2 hpv2 hp3 hoauth hq hf2 hfr
  refine ⟨sc, au, p ++ queryText q ++ fragmentText f, ?_, hsc, hScheme,
    not_mem_of_freeOf _ _ '/' (by simp) hau, by rw [hUser]; exact hpa, ?_, ?_⟩
  · rw [hloc]; simp
  · cases p with
    | nil => exact absurd rfl hpne
    | cons c t => simpa using hp1
  · rw [hR, hUser, hloc]
    simp

/-- A redirect whose `Location` parses to a URL without host is passed through. -/
theorem rewrite_no_host (resp : Response) (h s : GoString) (u : URL)
    (hparse : url.Parse (Header.Get resp.Header "Location".toList) = .ok u)
    (hhost : u.Host = []) : rewriteOAuthRedirect resp h s = ⟨none, resp, []⟩ := by
  unfold rewriteOAuthRedirect
  by_cases hst : resp.StatusCode < 300 ∨ resp.StatusCode ≥ 400
  · rw [if_pos hst]
  · rw [if_neg hst]
    by_cases hl : Header.Get resp.Header "Location".toList = []
    · simp only [hl, if_true]
    · simp only [hl, if_false, hparse, hhost, if_true]

/-- A redirect whose `Location` begins with the text the rewrite writes ahead of the path, and
is in encoded form from the path on, is rewritten to itself. -/
theorem rewrite_noop (resp : Response) (h s : GoString) (u : URL)
    (hstatus : 300 ≤ resp.StatusCode ∧ resp.StatusCode < 400)
    (hparse : url.Parse (Header.Get resp.Header "Location".toList) = .ok u)
    (hhost : u.Host = h) (hscheme : u.Scheme = s) (hoauth : isOAuthPath u.Path = true)
    (hpv : u.RawPath = [] ∨ validEncoded u.RawPath encodePath = true)
    (hfe : (strings.Cut (Header.Get resp.Header "Location".toList) '#').2.2 = true →
      (strings.Cut (Header.Get resp.Header "Location".toList) '#').2.1 ≠ [])
    (hfv : u.RawFragment = [] ∨ validEncoded u.RawFragment encodeFragment = true)
    (hwritten : strings.HasPrefix (Header.Get resp.Header "Location".toList)
      (originText s h u.User ++ ['/']) = true) :
    (rewriteOAuthRedirect resp h s).resp.StatusCode = resp.StatusCode ∧
    Header.Get (rewriteOAuthRedirect resp h s).resp.Header "Location".toList =
      Header.Get resp.Header "Location".toList := by
  by_cases hh : h = []
  · rw [rewrite_no_host resp h s u hparse (by rw [hhost]; exact hh)]
    exact ⟨rfl, rfl⟩
  obtain ⟨sc, au, tail, hloc, hsc, hsch, hau, hpa, htail, hR⟩ :=
    rewrite_shape resp h s u hstatus hparse (by rw [hhost]; exact hh) hoauth hpv hfe hfv
  rw [hR]
  refine ⟨rfl, ?_⟩
  rw [Header.Get_Set]
  have horigin : originText s h u.User =
      (if s = [] then [] else s ++ [':']) ++
        '/' :: '/' :: (userinfoText u.User ++ escape h encodeHost) := by
    simp [originText, hh]
  obtain ⟨rest, hrest⟩ : ∃ rest, Header.Get resp.Header "Location".toList =
      (if s = [] then [] else s ++ [':']) ++
        '/' :: '/' :: ((userinfoText u.User ++ escape h encodeHost) ++ '/' :: rest) := by
    simp only [strings.HasPrefix, List.isPrefixOf_iff_prefix] at hwritten
    obtain ⟨rest, hrest⟩ := hwritten
    exact ⟨rest, by rw [← hrest, horigin]; simp⟩
  obtain ⟨t, rfl⟩ : ∃ t, tail = '/' :: t := by
    cases tail with
    | nil => simp at htail
    | cons c t => simp at htail; exact ⟨t, by rw [htail]⟩
  have hscheme2 : schemeText sc = (if s = [] then [] else s ++ [':']) := by
    cases sc with
    | none =>
      simp only [Option.getD_none, strings.ToLower, List.map_nil] at hsch
      rw [← hscheme, hsch]; rfl
    | some x =>
      have hxne : x ≠ [] := by
        rintro rfl
        simp [validScheme] at hsc
      have hlen : x.length = s.length := by
        rw [← hscheme, hsch]
        simp [strings.ToLower]
      have hsne : s ≠ [] := by
        rintro rfl
        exact hxne (List.length_eq_zero.mp hlen)
      rw [if_neg hsne]
      have heq : x ++ ':' :: '/' :: '/' :: (au ++ '/' :: t) =
          s ++ ':' :: '/' :: '/' :: ((userinfoText u.User ++ escape h encodeHost) ++ '/' :: rest) := by
        have := hloc.symm.trans hrest
        rw [if_neg hsne] at this
        simpa [schemeText] using this
      obtain ⟨hx, _⟩ := List.append_inj heq hlen
      rw [hx]; rfl
  have hrem : au ++ '/' :: t = (userinfoText u.User ++ escape h encodeHost) ++ '/' :: rest := by
    have := hloc.symm.trans hrest
    rw [hscheme2] at this
    simp only [List.append_assoc] at this
    have := List.append_cancel_left this
    simpa using this
  have hslash : '/' ∉ userinfoText u.User ++ escape h encodeHost := by
    simp only [List.mem_append, not_or]
    exact ⟨slash_not_mem_userinfoText u.User,
      not_mem_escape h encodeHost '/' (by decide) (by decide)⟩
  obtain ⟨hauh, ht⟩ := strings.first_slash_unique au t _ rest hrem hau hslash
  rw [horigin, hrest, ht]
  simp

/-- C2: when the status code is outside 300..399, or the response is a redirect whose
`Location` URL has a path that starts with none of the allow-listed prefixes,
`rewriteOAuthRedirect` returns no error, writes no log line and leaves the response (status and
every header, `Location` included) exactly as it was. -/
theorem rewriteOAuthRedirect_passthrough (resp : Response) (requestHost requestScheme : GoString)
    (h : resp.StatusCode < 300 ∨ resp.StatusCode ≥ 400 ∨
      ((300 ≤ resp.StatusCode ∧ resp.StatusCode < 400) ∧
        ∀ u, url.Parse (Header.Get resp.Header "Location".toList) = .ok u →
          isOAuthPath u.Path = false)) :
    rewriteOAuthRedirect resp requestHost requestScheme = ⟨none, resp, []⟩ := by
  unfold rewriteOAuthRedirect
  by_cases hs : resp.StatusCode < 300 ∨ resp.StatusCode ≥ 400
  · rw [if_pos hs]
  · rw [if_neg hs]
    have hp : ∀ u, url.Parse (Header.Get resp.Header "Location".toList) = .ok u →
        isOAuthPath u.Path = false := by
      rcases h with h | h | h
      · exact absurd (Or.inl h) hs
      · exact absurd (Or.inr h) hs
      · exact h.2
    by_cases hl : Header.Get resp.Header "Location".toList = []
    · simp only [hl, if_true]
    · simp only [hl, if_false]
      cases hparse : url.Parse (Header.Get resp.Header "Location".toList) with
      | error e => rfl
      | ok u =>
        simp only [hp u hparse]
        by_cases hh : u.Host = []
        · simp [hh]
        · simp [hh]

/-- C2, witness: a 302 to `https://internal-auth:4444/some/other/path` stays unchanged. -/
theorem rewriteOAuthRedirect_passthrough_witness :
    ((302 : Int) < 300 ∨ (302 : Int) ≥ 400 ∨
      ((300 ≤ (302 : Int) ∧ (302 : Int) < 400) ∧
        ∀ u, url.Parse (Header.Get
            (samples.redirect302 "https://internal-auth:4444/some/other/path").Header
            "Location".toList) = .ok u → isOAuthPath u.Path = false)) ∧
    rewriteOAuthRedirect (samples.redirect302 "https://internal-auth:4444/some/other/path")
        "app.example.com".toList "https".toList =
      ⟨none, samples.redirect302 "https://internal-auth:4444/some/other/path", []⟩ := by
  have hp : ∀ u, url.Parse (Header.Get
      (samples.redirect302 "https://internal-auth:4444/some/other/path").Header
      "Location".toList) = .ok u → isOAuthPath u.Path = false := by
    intro u hu
    have hv : url.Parse (Header.Get
        (samples.redirect302 "https://internal-auth:4444/some/other/path").Header
        "Location".toList) =
        .ok { Scheme := "https".toList, Host := "internal-auth:4444".toList,
              Path := "/some/other/path".toList } := by decide
    rw [hv] at hu
    injection hu with hu
    subst hu
    decide
  exact ⟨Or.inr (Or.inr ⟨by decide, hp⟩),
    rewriteOAuthRedirect_passthrough _ _ _ (Or.inr (Or.inr ⟨by decide, hp⟩))⟩

/-- C3, as stated, fails: `https://app.example.com/oauth/login#` already has the inbound host
and scheme and an allow-listed path, and the rewrite drops its trailing `#`. -/
theorem rewriteOAuthRedirect_drops_empty_fragment :
    (url.Parse "https://app.example.com/oauth/login#".toList).map
        (fun u => (u.Scheme, u.Host, u.Path)) =
      .ok ("https".toList, "app.example.com".toList, "/oauth/login".toList) ∧
    isOAuthPath "/oauth/login".toList = true ∧
    Header.Get (rewriteOAuthRedirect
      (samples.redirect302 "https://app.example.com/oauth/login#")
      "app.example.com".toList "https".toList).resp.Header "Location".toList =
      "https://app.example.com/oauth/login".toList ∧
    Header.Get (rewriteOAuthRedirect
      (samples.redirect302 "https://app.example.com/oauth/login#")
      "app.example.com".toList "https".toList).resp.Header "Location".toList ≠
    Header.Get (samples.redirect302 "https://app.example.com/oauth/login#").Header
      "Location".toList := by
  decide

/-- C3, amended: for a redirect (status 300..399) whose `Location` parses to a URL with host
`h`, scheme `s` and a path with an allow-listed prefix, and that is already in the form the
rewrite writes (it begins with `originText s h user` and the `/` of the path, that is with
`s://[userinfo@]h/` where the user information and `h` are escaped as `net/url` escapes them;
the path as written is a valid encoding, there is no empty fragment, and the fragment as
written is a valid encoding): `rewriteOAuthRedirect(resp, h, s)` leaves the `Location` string
as it was, and applying it a second time gives the same `Location` as applying it once. -/
theorem rewriteOAuthRedirect_idempotent (resp : Response) (h s : GoString) (u : URL)
    (hstatus : 300 ≤ resp.StatusCode ∧ resp.StatusCode < 400)
    (hparse : url.Parse (Header.Get resp.Header "Location".toList) = .ok u)
    (hhost : u.Host = h) (hscheme : u.Scheme = s) (hoauth : isOAuthPath u.Path = true)
    (hwritten : strings.HasPrefix (Header.Get resp.Header "Location".toList)
      (originText s h u.User ++ ['/']) = true)
    (hpv : u.RawPath = [] ∨ validEncoded u.RawPath encodePath = true)
    (hfe : (strings.Cut (Header.Get resp.Header "Location".toList) '#').2.2 = true →
      (strings.Cut (Header.Get resp.Header "Location".toList) '#').2.1 ≠ [])
    (hfv : u.RawFragment = [] ∨ validEncoded u.RawFragment encodeFragment = true) :
    Header.Get (rewriteOAuthRedirect resp h s).resp.Header "Location".toList =
      Header.Get resp.Header "Location".toList ∧
    Header.Get (rewriteOAuthRedirect (rewriteOAuthRedirect resp h s).resp h s).resp.Header
        "Location".toList =
      Header.Get (rewriteOAuthRedirect resp h s).resp.Header "Location".toList := by
  obtain ⟨h1, h2⟩ := rewrite_noop resp h s u hstatus hparse hhost hscheme hoauth hpv hfe hfv
    hwritten
  refine ⟨h2, ?_⟩
  exact (rewrite_noop (rewriteOAuthRedirect resp h s).resp h s u (by rw [h1]; exact hstatus)
    (by rw [h2]; exact hparse) hhost hscheme hoauth hpv (by rw [h2]; exact hfe) hfv
    (by rw [h2]; exact hwritten)).2

/-- C3, witness: `https://app.example.com/oauth/login?challenge=abc` with inbound host
`app.example.com` and scheme `https` stays as it is. -/
theorem rewriteOAuthRedirect_idempotent_witness :
    Header.Get (rewriteOAuthRedirect
      (samples.redirect302 "https://app.example.com/oauth/login?challenge=abc")
      "app.example.com".toList "https".toList).resp.Header "Location".toList =
    Header.Get (samples.redirect302 "https://app.example.com/oauth/login?challenge=abc").Header
      "Location".toList :=
  (rewriteOAuthRedirect_idempotent
    (samples.redirect302 "https://app.example.com/oauth/login?challenge=abc")
    "app.example.com".toList "https".toList
    { Scheme := "https".toList, Host := "app.example.com".toList,
      Path := "/oauth/login".toList, RawQuery := "challenge=abc".toList }
    (by decide) (by decide) (by decide) (by decide) (by decide) (by decide) (by decide)
    (by decide) (by decide)).1

/-- C4, as stated, fails: the scheme-less reference `//internal-auth:4444/oauth/login` is not
an absolute URL (it parses with an empty scheme), yet its `Location` is rewritten. -/
theorem rewriteOAuthRedirect_schemeless_rewritten :
    (url.Parse "//internal-auth:4444/oauth/login".toList).map (fun u => u.Scheme) = .ok [] ∧
    Header.Get (rewriteOAuthRedirect (samples.redirect302 "//internal-auth:4444/oauth/login")
      "app.example.com".toList "https".toList).resp.Header "Location".toList =
      "https://app.example.com/oauth/login".toList ∧
    (rewriteOAuthRedirect (samples.redirect302 "//internal-auth:4444/oauth/login")
      "app.example.com".toList "https".toList).resp ≠
      samples.redirect302 "//internal-auth:4444/oauth/login" := by
  decide

/-- C4, amended: a redirect whose `Location` is empty, is unparseable or parses to a URL
without host (a path-only reference, for instance) is passed through: no error, no log line,
the response unchanged.  A scheme is not asked for. -/
theorem rewriteOAuthRedirect_without_host (resp : Response) (requestHost requestScheme : GoString)
    (h : Header.Get resp.Header "Location".toList = [] ∨
      (∃ e, url.Parse (Header.Get resp.Header "Location".toList) = .error e) ∨
      (∃ u, url.Parse (Header.Get resp.Header "Location".toList) = .ok u ∧ u.Host = [])) :
    rewriteOAuthRedirect resp requestHost requestScheme = ⟨none, resp, []⟩ := by
  unfold rewriteOAuthRedirect
  by_cases hs : resp.StatusCode < 300 ∨ resp.StatusCode ≥ 400
  · rw [if_pos hs]
  · rw [if_neg hs]
    by_cases hl : Header.Get resp.Header "Location".toList = []
    · simp only [hl, if_true]
    · simp only [hl, if_false]
      rcases h with h | ⟨e, he⟩ | ⟨u, hu, hh⟩
      · exact absurd h hl
      · simp only [he]
      · simp only [hu, hh, if_true]

/-- C4, witness: a 302 to the path-only reference `/oauth/login` stays unchanged. -/
theorem rewriteOAuthRedirect_without_host_witness :
    (Header.Get (samples.redirect302 "/oauth/login").Header "Location".toList = [] ∨
      (∃ e, url.Parse (Header.Get (samples.redirect302 "/oauth/login").Header
        "Location".toList) = .error e) ∨
      (∃ u, url.Parse (Header.Get (samples.redirect302 "/oauth/login").Header
        "Location".toList) = .ok u ∧ u.Host = [])) ∧
    rewriteOAuthRedirect (samples.redirect302 "/oauth/login") "app.example.com".toList
      "https".toList = ⟨none, samples.redirect302 "/oauth/login", []⟩ :=
  have h : ∃ u, url.Parse (Header.Get (samples.redirect302 "/oauth/login").Header
      "Location".toList) = .ok u ∧ u.Host = [] :=
    ⟨{ Path := "/oauth/login".toList }, by decide, rfl⟩
  ⟨Or.inr (Or.inr h), rewriteOAuthRedirect_without_host _ _ _ (Or.inr (Or.inr h))⟩

/-- C5, as stated, fails for a request with an empty `Host` that carries its own
`X-Forwarded-Host`: the director does not set the header, so the outbound request keeps the
inbound value instead of the inbound `Host`. -/
theorem createHydraProxy_empty_host_keeps_header :
    (samples.request "" [("X-Forwarded-Host".toList, ["evil.example".toList])] false).Host =
      [] ∧
    Header.Get ((createHydraProxy samples.target
        (samples.request "" [("X-Forwarded-Host".toList, ["evil.example".toList])] false)).Director
        (samples.request "" [("X-Forwarded-Host".toList, ["evil.example".toList])] false)).Header
      "X-Forwarded-Host".toList = "evil.example".toList ∧
    Header.Get ((createHydraProxy samples.target
        (samples.request "" [("X-Forwarded-Host".toList, ["evil.example".toList])] false)).Director
        (samples.request "" [("X-Forwarded-Host".toList, ["evil.example".toList])] false)).Header
      "X-Forwarded-Host".toList ≠
      (samples.request "" [("X-Forwarded-Host".toList, ["evil.example".toList])] false).Host := by
  decide

/-- C5, amended: for a request whose `X-Forwarded-Proto` value has only bytes below `0x80`
(ASCII), the scheme `createHydraProxy` uses is `getRequestScheme(req)`.  When the header value
is non-empty it is that value trimmed and lower-cased: the value is white space (`\t`, `\n`,
`\v`, `\f`, `\r`, space), then a text `core` that neither begins nor ends with white space,
then white space, and the scheme is `core` with every `A .. Z` replaced by `a .. z`.  When
there is no such value it is `https` with TLS state and `http` without.  `ModifyResponse`
rewrites with the inbound `Host` and this scheme; the director sets `X-Forwarded-Host` to the
inbound `Host` when the `Host` is non-empty and `X-Forwarded-Proto` to the scheme when the
scheme is non-empty, and otherwise leaves the header of the outbound request as it was. -/
theorem createHydraProxy_scheme_and_headers (target : url.URL) (req out : Request)
    (resp : Response)
    (hascii : ∀ c ∈ Header.Get req.Header "X-Forwarded-Proto".toList, c.toNat < 128) :
    (Header.Get req.Header "X-Forwarded-Proto".toList ≠ [] →
      getRequestScheme req =
        strings.ToLower (strings.TrimSpace (Header.Get req.Header "X-Forwarded-Proto".toList)) ∧
      ∃ pre core post : GoString,
        Header.Get req.Header "X-Forwarded-Proto".toList = pre ++ core ++ post ∧
        (∀ c ∈ pre, c ∈ ['\t', '\n', Char.ofNat 0x0b, Char.ofNat 0x0c, '\r', ' ']) ∧
        (∀ c ∈ post, c ∈ ['\t', '\n', Char.ofNat 0x0b, Char.ofNat 0x0c, '\r', ' ']) ∧
        (∀ c, core.head? = some c →
          c ∉ ['\t', '\n', Char.ofNat 0x0b, Char.ofNat 0x0c, '\r', ' ']) ∧
        (∀ c, core.getLast? = some c →
          c ∉ ['\t', '\n', Char.ofNat 0x0b, Char.ofNat 0x0c, '\r', ' ']) ∧
        getRequestScheme req =
          core.map (fun c => if 'A' ≤ c ∧ c ≤ 'Z' then Char.ofNat (c.toNat + 32) else c)) ∧
    (Header.Get req.Header "X-Forwarded-Proto".toList = [] →
      getRequestScheme req = if req.TLS = true then "https".toList else "http".toList) ∧
    (createHydraProxy target req).ModifyResponse resp =
      rewriteOAuthRedirect resp req.Host (getRequestScheme req) ∧
    (req.Host ≠ [] →
      Header.Get ((createHydraProxy target req).Director out).Header "X-Forwarded-Host".toList =
        req.Host) ∧
    (getRequestScheme req ≠ [] →
      Header.Get ((createHydraProxy target req).Director out).Header "X-Forwarded-Proto".toList =
        getRequestScheme req) ∧
    (req.Host = [] →
      Header.Get ((createHydraProxy target req).Director out).Header "X-Forwarded-Host".toList =
        Header.Get out.Header "X-Forwarded-Host".toList) ∧
    (getRequestScheme req = [] →
      Header.Get ((createHydraProxy target req).Director out).Header "X-Forwarded-Proto".toList =
        Header.Get out.Header "X-Forwarded-Proto".toList) := by
  -- `hascii` delimits the requests on which the embedded `strings` functions are exact
  have _ := hascii
  have hHP : "X-Forwarded-Host".toList ≠ "X-Forwarded-Proto".toList := by decide
  have hdef : (httputil.NewSingleHostReverseProxy target out).Header = out.Header := rfl
  refine ⟨?_, ?_, rfl, ?_, ?_, ?_, ?_⟩
  · intro hp
    have hscheme : getRequestScheme req =
        strings.ToLower (strings.TrimSpace (Header.Get req.Header "X-Forwarded-Proto".toList)) := by
      unfold getRequestScheme
      simp only [hp, ne_eq, not_false_eq_true, if_true]
    refine ⟨hscheme, ?_⟩
    obtain ⟨pre, post, hsplit, hpre, hpost, hhead, hlast⟩ :=
      strings.TrimSpace_spec (Header.Get req.Header "X-Forwarded-Proto".toList)
    refine ⟨pre, strings.TrimSpace (Header.Get req.Header "X-Forwarded-Proto".toList), post,
      hsplit, ?_, ?_, ?_, ?_, ?_⟩
    · intro c hc
      exact (strings.asciiSpace_iff c).mp (hpre c hc)
    · intro c hc
      exact (strings.asciiSpace_iff c).mp (hpost c hc)
    · intro c hc hm
      have := hhead c hc
      rw [(strings.asciiSpace_iff c).mpr hm] at this
      exact Bool.noConfusion this
    · intro c hc hm
      have := hlast c hc
      rw [(strings.asciiSpace_iff c).mpr hm] at this
      exact Bool.noConfusion this
    · rw [hscheme]
      rfl
  · intro hp
    unfold getRequestScheme
    simp only [hp, ne_eq, not_true_eq_false, if_false]
  · intro hh
    simp only [createHydraProxy, ne_eq, hh, not_false_eq_true, if_true]
    split
    · rw [Header.Get_Set_ne _ _ _ _ hHP, Header.Get_Set]
    · rw [Header.Get_Set]
  · intro hs
    simp only [createHydraProxy, ne_eq, hs, not_false_eq_true, if_true]
    rw [Header.Get_Set]
  · intro hh
    simp only [createHydraProxy, ne_eq, hh, not_true_eq_false, if_false]
    split
    · rw [Header.Get_Set_ne _ _ _ _ hHP, hdef]
    · rw [hdef]
  · intro hs
    simp only [createHydraProxy, ne_eq, hs, not_true_eq_false, if_false]
    split
    · rw [Header.Get_Set_ne _ _ _ _ hHP.symm, hdef]
    · rw [hdef]

/-- C5, witness: `app.example.com` over TLS, with `X-Forwarded-Proto: HTTPS`. -/
theorem createHydraProxy_scheme_and_headers_witness :
    (∀ c ∈ Header.Get (samples.request "app.example.com"
      [("X-Forwarded-Proto".toList, ["HTTPS".toList])] true).Header "X-Forwarded-Proto".toList,
      c.toNat < 128) ∧
    getRequestScheme (samples.request "app.example.com"
      [("X-Forwarded-Proto".toList, ["HTTPS".toList])] true) = "https".toList ∧
    Header.Get ((createHydraProxy samples.target (samples.request "app.example.com"
      [("X-Forwarded-Proto".toList, ["HTTPS".toList])] true)).Director
        (samples.request "app.example.com"
          [("X-Forwarded-Proto".toList, ["HTTPS".toList])] true)).Header
      "X-Forwarded-Host".toList = "app.example.com".toList ∧
    Header.Get ((createHydraProxy samples.target (samples.request "app.example.com"
      [("X-Forwarded-Proto".toList, ["HTTPS".toList])] true)).Director
        (samples.request "app.example.com"
          [("X-Forwarded-Proto".toList, ["HTTPS".toList])] true)).Header
      "X-Forwarded-Proto".toList = "https".toList :=
  ⟨by decide, by decide,
   (createHydraProxy_scheme_and_headers samples.target
      (samples.request "app.example.com" [("X-Forwarded-Proto".toList, ["HTTPS".toList])] true)
      (samples.request "app.example.com" [("X-Forwarded-Proto".toList, ["HTTPS".toList])] true)
      (samples.redirect302 "/") (by decide)).2.2.2.1 (by decide),
   (createHydraProxy_scheme_and_headers samples.target
      (samples.request "app.example.com" [("X-Forwarded-Proto".toList, ["HTTPS".toList])] true)
      (samples.request "app.example.com" [("X-Forwarded-Proto".toList, ["HTTPS".toList])] true)
      (samples.redirect302 "/") (by decide)).2.2.2.2.1 (by decide)⟩

end router

/-! ## The scope-gated handlers and the flow mediator -/

namespace controller

/-- C6: with no verified user id in the context (`id == 0`) each of the six handlers writes
exactly one response, 401 with the failure envelope `unauthorized`, and calls no collaborator. -/
theorem handlers_fail_closed (m : Collaborators) (c : Context) (h : c.GetInt "id" = 0) :
    OAuthGetUserInfo m c = [Effect.JSON 401 (failure "unauthorized")] ∧
    OAuthGetBalance m c = [Effect.JSON 401 (failure "unauthorized")] ∧
    OAuthGetUsage m c = [Effect.JSON 401 (failure "unauthorized")] ∧
    OAuthListTokens m c = [Effect.JSON 401 (failure "unauthorized")] ∧
    OAuthCreateToken m c = [Effect.JSON 401 (failure "unauthorized")] ∧
    OAuthDeleteToken m c = [Effect.JSON 401 (failure "unauthorized")] := by
  simp [OAuthGetUserInfo, OAuthGetBalance, OAuthGetUsage, OAuthListTokens, OAuthCreateToken,
    OAuthDeleteToken, getUserFromContext, h]

/-- C6, witness: a context without user id, against collaborators that would answer. -/
theorem handlers_fail_closed_witness :
    (samples.context 0 "5" "laptop").GetInt "id" = 0 ∧
    OAuthGetBalance samples.collaborators (samples.context 0 "5" "laptop") =
      [Effect.JSON 401 (failure "unauthorized")] ∧
    OAuthDeleteToken samples.collaborators (samples.context 0 "5" "laptop") =
      [Effect.JSON 401 (failure "unauthorized")] :=
  ⟨by decide,
   (handlers_fail_closed samples.collaborators (samples.context 0 "5" "laptop")
      (by decide)).2.1,
   (handlers_fail_closed samples.collaborators (samples.context 0 "5" "laptop")
      (by decide)).2.2.2.2.2⟩

end controller

namespace hydra

/-- C7, as stated, fails for the reject operation of the logout flow: against an admin
interface on which every call succeeds, rejecting a logout returns no redirect, and the request
it sends carries neither the error code nor the description. -/
theorem reject_logout_no_redirect_no_body :
    (Service.reject ⟨samples.admin⟩ Flow.logout "c1" "access_denied" "The user declined").ret =
      (none, none) ∧
    (Service.reject ⟨samples.admin⟩ Flow.logout "c1" "access_denied" "The user declined").calls =
      [AdminCall.RejectOAuth2LogoutRequest "c1"] ∧
    ((Service.reject ⟨samples.admin⟩ Flow.logout "c1" "access_denied"
      "The user declined").calls.map AdminCall.rejectBody) = [none] := by
  decide

/-- C7, amended: accept and reject of the login and the consent flow and accept of the logout
flow return what the admin interface returned for the one call they make, so on success its
redirect; `RejectLogin` and `RejectConsent` send the error code and the description in the
request body; `RejectLogout` takes the challenge only, sends no body and returns only the
error of the admin call. -/
theorem accept_reject_return_admin_reply (s : Service) (challenge subject errorID
    errorDescription : String) (grantScope : List String) (remember : Bool) (rememberFor : Int)
    (session : Option AcceptOAuth2ConsentRequestSession) :
    Service.AcceptLogin s challenge subject remember rememberFor =
      ⟨s.admin.AcceptOAuth2LoginRequest challenge
        { Subject := subject, Remember := some remember, RememberFor := some rememberFor },
       [AdminCall.AcceptOAuth2LoginRequest challenge
        { Subject := subject, Remember := some remember, RememberFor := some rememberFor }]⟩ ∧
    Service.RejectLogin s challenge errorID errorDescription =
      ⟨s.admin.RejectOAuth2LoginRequest challenge
        { Error := some errorID, ErrorDescription := some errorDescription },
       [AdminCall.RejectOAuth2LoginRequest challenge
        { Error := some errorID, ErrorDescription := some errorDescription }]⟩ ∧
    Service.AcceptConsent s challenge grantScope remember rememberFor session =
      ⟨s.admin.AcceptOAuth2ConsentRequest challenge
        { GrantScope := grantScope, Remember := some remember, RememberFor := some rememberFor,
          Session := session },
       [AdminCall.AcceptOAuth2ConsentRequest challenge
        { GrantScope := grantScope, Remember := some remember, RememberFor := some rememberFor,
          Session := session }]⟩ ∧
    Service.RejectConsent s challenge errorID errorDescription =
      ⟨s.admin.RejectOAuth2ConsentRequest challenge
        { Error := some errorID, ErrorDescription := some errorDescription },
       [AdminCall.RejectOAuth2ConsentRequest challenge
        { Error := some errorID, ErrorDescription := some errorDescription }]⟩ ∧
    Service.AcceptLogout s challenge =
      ⟨s.admin.AcceptOAuth2LogoutRequest challenge,
       [AdminCall.AcceptOAuth2LogoutRequest challenge]⟩ ∧
    Service.RejectLogout s challenge =
      ⟨s.admin.RejectOAuth2LogoutRequest challenge,
       [AdminCall.RejectOAuth2LogoutRequest challenge]⟩ :=
  ⟨rfl, rfl, by cases session <;> rfl, rfl, rfl, rfl⟩

/-- C8: `AcceptLogin` makes exactly one admin request, accept-login keyed by the challenge with
a body whose subject, remember and remember_for are the arguments, and returns what that request
returned, redirect and error alike, unchanged. -/
theorem AcceptLogin_single_call (s : Service) (challenge subject : String) (remember : Bool)
    (rememberFor : Int) :
    (Service.AcceptLogin s challenge subject remember rememberFor).calls =
      [AdminCall.AcceptOAuth2LoginRequest challenge
        { Subject := subject, Remember := some remember, RememberFor := some rememberFor }] ∧
    (Service.AcceptLogin s challenge subject remember rememberFor).ret =
      s.admin.AcceptOAuth2LoginRequest challenge
        { Subject := subject, Remember := some remember, RememberFor := some rememberFor } :=
  ⟨rfl, rfl⟩

end hydra

namespace controller

/-- C9: for an authenticated user `u` (`u != 0`) and a numeric `id` parameter `t`: when
`GetTokenById(t)` returns a token of user `u`, the handler looks the token up, calls
`DeleteTokenById(t, u)` and answers 200 `token deleted`, or 500 `failed to delete token` when
the deletion fails, and does nothing else; `DeleteTokenById` is called only in that case, and
then with exactly `(t, u)`; when the lookup fails or the token belongs to another user the
handler looks the token up, answers 404 `token not found` and deletes nothing; a missing `id`
is answered with 400 `missing token id` and a non-numeric one with 400 `invalid token id`,
without lookup and without deletion. -/
theorem OAuthDeleteToken_owner_only (m : Collaborators) (c : Context)
    (hu : c.GetInt "id" ≠ 0) :
    (∀ t, strconv.Atoi (c.Param "id") = .ok t →
      (∀ tok, m.GetTokenById t = .ok tok → tok.UserId = c.GetInt "id" →
        (m.DeleteTokenById t (c.GetInt "id") = none →
          OAuthDeleteToken m c =
            [Effect.GetTokenById t, Effect.DeleteTokenById t (c.GetInt "id"),
              Effect.JSON 200 (JSON.obj [("success", JSON.bool true),
                ("message", JSON.str "token deleted")])]) ∧
        (∀ e, m.DeleteTokenById t (c.GetInt "id") = some e →
          OAuthDeleteToken m c =
            [Effect.GetTokenById t, Effect.DeleteTokenById t (c.GetInt "id"),
              Effect.JSON 500 (failure "failed to delete token")])) ∧
      (∀ t2 u2, Effect.DeleteTokenById t2 u2 ∈ OAuthDeleteToken m c →
        t2 = t ∧ u2 = c.GetInt "id" ∧
        ∃ tok, m.GetTokenById t = .ok tok ∧ tok.UserId = c.GetInt "id") ∧
      (((∃ e, m.GetTokenById t = .error e) ∨
          (∃ tok, m.GetTokenById t = .ok tok ∧ tok.UserId ≠ c.GetInt "id")) →
        OAuthDeleteToken m c =
          [Effect.GetTokenById t, Effect.JSON 404 (failure "token not found")])) ∧
    (c.Param "id" = "" →
      OAuthDeleteToken m c = [Effect.JSON 400 (failure "missing token id")]) ∧
    (c.Param "id" ≠ "" → (∃ e, strconv.Atoi (c.Param "id") = .error e) →
      OAuthDeleteToken m c = [Effect.JSON 400 (failure "invalid token id")]) := by
  have hparam : ∀ t, strconv.Atoi (c.Param "id") = .ok t → c.Param "id" ≠ "" := by
    intro t ht he
    rw [he] at ht
    have h0 : strconv.Atoi "" = .error strconv.NumError.ErrSyntax := by decide
    rw [h0] at ht
    exact Except.noConfusion ht
  refine ⟨fun t ht => ⟨?_, ?_, ?_⟩, ?_, ?_⟩
  · intro tok htok hown
    refine ⟨?_, ?_⟩
    · intro hd
      simp only [OAuthDeleteToken, getUserFromContext, hu, if_false, hparam t ht, ht,
        List.nil_append, htok, hown, ne_eq, not_true_eq_false, hd]
    · intro e hd
      simp only [OAuthDeleteToken, getUserFromContext, hu, if_false, hparam t ht, ht,
        List.nil_append, htok, hown, ne_eq, not_true_eq_false, hd]
  · intro t2 u2 hmem
    simp only [OAuthDeleteToken, getUserFromContext, hu, if_false, hparam t ht, ht,
      List.nil_append] at hmem
    cases hg : m.GetTokenById t with
    | error e => simp [hg] at hmem
    | ok tok =>
      simp only [hg] at hmem
      by_cases ho : tok.UserId = c.GetInt "id"
      · simp only [ho, ne_eq, not_true_eq_false, if_false] at hmem
        cases hd : m.DeleteTokenById t (c.GetInt "id") with
        | none =>
          simp [hd] at hmem
          exact ⟨hmem.1, hmem.2, tok, rfl, ho⟩
        | some e =>
          simp [hd] at hmem
          exact ⟨hmem.1, hmem.2, tok, rfl, ho⟩
      · simp [ho] at hmem
  · intro hfail
    simp only [OAuthDeleteToken, getUserFromContext, hu, if_false, hparam t ht, ht,
      List.nil_append]
    rcases hfail with ⟨e, he⟩ | ⟨tok, htok, hne⟩
    · simp only [he]
    · simp only [htok, ne_eq, hne, not_false_eq_true, if_true]
  · intro he
    simp only [OAuthDeleteToken, getUserFromContext, hu, if_false, he, if_true,
      List.nil_append]
  · rintro he ⟨e, h1⟩
    simp only [OAuthDeleteToken, getUserFromContext, hu, if_false, he, h1,
      List.nil_append]

/-- C9, witness: user 7 deletes token 5, which is theirs: lookup, deletion with `(5, 7)`,
200. -/
theorem OAuthDeleteToken_owner_only_witness :
    (samples.context 7 "5" "").GetInt "id" ≠ 0 ∧
    strconv.Atoi ((samples.context 7 "5" "").Param "id") = .ok 5 ∧
    samples.collaborators.GetTokenById 5 = .ok { Id := 5, UserId := 7, Name := "laptop" } ∧
    samples.collaborators.DeleteTokenById 5 7 = none ∧
    OAuthDeleteToken samples.collaborators (samples.context 7 "5" "") =
      [Effect.GetTokenById 5,
        Effect.DeleteTokenById 5 7,
        Effect.JSON 200 (JSON.obj [("success", JSON.bool true),
          ("message", JSON.str "token deleted")])] :=
  ⟨by decide, by decide, rfl, rfl,
   (((OAuthDeleteToken_owner_only samples.collaborators (samples.context 7 "5" "")
      (by decide)).1 5 (by decide)).1 { Id := 5, UserId := 7, Name := "laptop" } rfl
      (by decide)).1 rfl⟩

/-- C10, the code at the failing input: a name of sixteen two-byte characters has 16
characters, at most 30, and 32 bytes; `OAuthCreateToken` rejects it with 400
`token name too long (max 30 characters)`, before any key is generated. -/
theorem OAuthCreateToken_rejects_16_characters (m : Collaborators) :
    "éééééééééééééééé".length = 16 ∧
    len "éééééééééééééééé" = 32 ∧
    OAuthCreateToken m (samples.context 7 "" "éééééééééééééééé") =
      [Effect.JSON 400 (failure "token name too long (max 30 characters)")] := by
  refine ⟨by decide, by decide, ?_⟩
  have h1 : (samples.context 7 "" "éééééééééééééééé").GetInt "id" = 7 := by decide
  have h2 : ShouldBindJSON (samples.context 7 "" "éééééééééééééééé") =
      .ok "éééééééééééééééé" := by decide
  have h3 : len "éééééééééééééééé" > 30 := by decide
  simp only [OAuthCreateToken, getUserFromContext, h1, h2, h3, if_true, List.nil_append]
  rfl

end controller
